import Mathlib

/-!
Shallow embedding of `src/core/ext/resolver/dns/c_ares/grpc_ares_ev_driver_posix.c`.

The file bridges the c-ares resolution engine into grpc's reactor.  The
embedding models one `grpc_ares_ev_driver` together with the fd nodes it
tracks.  Calls into the external collaborators (the ares channel, the
reactor-fd layer, the pollset set) are recorded as an event trace, and the
engine's reported interest set (the result of `ares_getsock`, decoded through
the `ARES_GETSOCK_READABLE` / `ARES_GETSOCK_WRITABLE` bitmask) is passed in
as a list of per-slot triples.  Nodes removed from the driver's list whose
registrations are still pending are kept in a `detached` pool until their
reference count reaches zero, mirroring the heap lifetime of the C structs.
-/

namespace AresEv

/-- Sentinel `ARES_SOCKET_BAD` passed to `ares_process_fd` for the direction
that did not fire. -/
def ARES_SOCKET_BAD : Int := -1

/-- Bound `ARES_GETSOCK_MAXNUM` on the number of slots `ares_getsock` reports. -/
def ARES_GETSOCK_MAXNUM : Nat := 16

/-- One decoded slot of an `ares_getsock` report: the native descriptor in
`socks[i]` with the readable/writable bits of `socks_bitmask` at index `i`. -/
structure SockInfo where
  fd : Int
  readable : Bool
  writable : Bool
deriving DecidableEq

/-- Model of `struct fd_node`.  `nodeId` stands for the identity of the heap
allocation (the pointer); `refs` is the `gpr_refcount`.  The `grpc_fd` handle
is represented by the wrapped native descriptor `fd`. -/
structure FdNode where
  nodeId : Nat
  fd : Int
  readable_registered : Bool
  writable_registered : Bool
  refs : Nat
deriving DecidableEq

/-- Model of `struct grpc_ares_ev_driver`: the fd list and the `working`
flag, both guarded by the driver mutex. -/
structure Driver where
  fds : List FdNode
  working : Bool
deriving DecidableEq

/-- Calls made into the external collaborators, recorded in program order.
The pollset-set operations carry whether the driver mutex is held at the
call site (statically determined by the C control flow). -/
inductive Ev where
  | pollsetAddFd (lockHeld : Bool) (nid : Nat) (fd : Int)
  | pollsetDelFd (lockHeld : Bool) (nid : Nat) (fd : Int)
  | fdShutdown (nid : Nat) (fd : Int)
  | notifyOnRead (nid : Nat) (fd : Int)
  | notifyOnWrite (nid : Nat) (fd : Int)
  | fdOrphan (nid : Nat) (fd : Int)
  | aresProcessFd (readFd : Int) (writeFd : Int)
  | aresCancel
deriving DecidableEq

/-- Whole-model state: the driver, plus nodes that have been unlinked from
`driver.fds` but not yet freed (their registrations are still pending), plus
an allocator counter producing fresh node identities. -/
structure World where
  driver : Driver
  detached : List FdNode
  nextId : Nat
deriving DecidableEq

/-- Model of `fd_node_unref`: drop one reference; on the transition to zero
the node is deleted (`grpc_pollset_set_del_fd`, `grpc_fd_shutdown`,
`grpc_fd_orphan`, `gpr_free`).  `lockHeld` records whether the caller holds
the driver mutex, which the pollset-set removal inherits. -/
def fd_node_unref (lockHeld : Bool) (fdn : FdNode) : Option FdNode × List Ev :=
  if fdn.refs = 1 then
    (none, [Ev.pollsetDelFd lockHeld fdn.nodeId fdn.fd,
            Ev.fdShutdown fdn.nodeId fdn.fd,
            Ev.fdOrphan fdn.nodeId fdn.fd])
  else
    (some { fdn with refs := fdn.refs - 1 }, [])

/-- Model of `pop_fd_node`: linear search of the list for the first node
wrapping `fd`; if found it is unlinked and returned together with the list
that remains. -/
def pop_fd_node : List FdNode → Int → Option (FdNode × List FdNode)
  | [], _ => none
  | n :: rest, fd =>
    if n.fd = fd then some (n, rest)
    else
      match pop_fd_node rest fd with
      | some (m, rest2) => some (m, n :: rest2)
      | none => none

/-- Slot `i` participates in reconciliation iff its readable or writable bit
is set in the `ares_getsock` bitmask. -/
def activeSlot (s : SockInfo) : Bool := s.readable || s.writable

/-- Fresh `fd_node` as built in `grpc_ares_notify_on_event_locked`:
refcount 1 (list membership), neither closure registered. -/
def new_fd_node (nid : Nat) (fd : Int) : FdNode :=
  ⟨nid, fd, false, false, 1⟩

/-- Register the read closure if the slot is readable and the closure has not
been registered: take a ref, call `grpc_fd_notify_on_read`, set the flag. -/
def maybe_register_read (s : SockInfo) (fdn : FdNode) : FdNode × List Ev :=
  if s.readable && !fdn.readable_registered then
    ({ fdn with refs := fdn.refs + 1, readable_registered := true },
     [Ev.notifyOnRead fdn.nodeId fdn.fd])
  else (fdn, [])

/-- Register the write closure if the slot is writable and the closure has
not been registered: take a ref, call `grpc_fd_notify_on_write`, set the flag. -/
def maybe_register_write (s : SockInfo) (fdn : FdNode) : FdNode × List Ev :=
  if s.writable && !fdn.writable_registered then
    ({ fdn with refs := fdn.refs + 1, writable_registered := true },
     [Ev.notifyOnWrite fdn.nodeId fdn.fd])
  else (fdn, [])

/-- Intermediate state of the reconciliation loop: the (shrinking) old fd
list, the new list being built by prepending, the allocator, and the events
emitted so far. -/
structure LoopSt where
  old : List FdNode
  newList : List FdNode
  nextId : Nat
  evs : List Ev
deriving DecidableEq

/-- Body of the per-slot loop of `grpc_ares_notify_on_event_locked`: skip
slots with neither bit set; otherwise pop the node wrapping the descriptor
from the old list, or create a fresh node (registering it with the pollset
set under the driver lock); prepend it to the new list and take any missing
readiness registrations. -/
def process_slot (st : LoopSt) (s : SockInfo) : LoopSt :=
  if activeSlot s then
    match pop_fd_node st.old s.fd with
    | some (n, rest) =>
      let r1 := maybe_register_read s n
      let r2 := maybe_register_write s r1.1
      ⟨rest, r2.1 :: st.newList, st.nextId, st.evs ++ r1.2 ++ r2.2⟩
    | none =>
      let n := new_fd_node st.nextId s.fd
      let r1 := maybe_register_read s n
      let r2 := maybe_register_write s r1.1
      ⟨st.old, r2.1 :: st.newList, st.nextId + 1,
       st.evs ++ [Ev.pollsetAddFd true st.nextId s.fd] ++ r1.2 ++ r2.2⟩
  else st

/-- Tail of `grpc_ares_notify_on_event_locked`: every node left in the old
list is no longer reported by `ares_getsock`; shut its fd down and drop the
list-membership ref (under the driver lock).  Nodes whose count stays
positive survive as detached nodes awaiting their pending firings. -/
def shutdown_leftovers : List FdNode → List FdNode × List Ev
  | [] => ([], [])
  | n :: rest =>
    let u := fd_node_unref true n
    let r := shutdown_leftovers rest
    (match u.1 with
     | some m => m :: r.1
     | none => r.1,
     Ev.fdShutdown n.nodeId n.fd :: u.2 ++ r.2)

/-- Model of `grpc_ares_notify_on_event_locked` (runs with the driver mutex
held): rebuild the fd list from the engine's reported interest set `snap`,
shut down and unref the leftovers, install the new list, and clear `working`
when the new list is empty. -/
def grpc_ares_notify_on_event_locked (w : World) (snap : List SockInfo) :
    World × List Ev :=
  let st := snap.foldl process_slot ⟨w.driver.fds, [], w.nextId, []⟩
  let lf := shutdown_leftovers st.old
  let working1 := if st.newList = [] then false else w.driver.working
  (⟨⟨st.newList, working1⟩, w.detached ++ lf.1, st.nextId⟩, st.evs ++ lf.2)

/-- Model of `grpc_ares_ev_driver_start`: under the driver mutex, if the
driver is not working, mark it working and run one reconciliation pass. -/
def grpc_ares_ev_driver_start (w : World) (snap : List SockInfo) :
    World × List Ev :=
  if w.driver.working then (w, [])
  else grpc_ares_notify_on_event_locked { w with driver.working := true } snap

/-- All nodes currently alive: the driver's list followed by the detached
pool. -/
def allNodes (w : World) : List FdNode := w.driver.fds ++ w.detached

/-- Locate a live node by identity (the argument pointer of a closure). -/
def findNode : List FdNode → Nat → Option FdNode
  | [], _ => none
  | n :: rest, nid => if n.nodeId = nid then some n else findNode rest nid

/-- Write an updated node value back at every position holding identity
`nid`. -/
def replaceNode : List FdNode → Nat → FdNode → List FdNode
  | [], _, _ => []
  | n :: rest, nid, m =>
    (if n.nodeId = nid then m else n) :: replaceNode rest nid m

/-- Drop every position holding identity `nid` (the node was freed). -/
def removeNode : List FdNode → Nat → List FdNode
  | [], _ => []
  | n :: rest, nid =>
    if n.nodeId = nid then removeNode rest nid else n :: removeNode rest nid

/-- Write back the outcome of an unref on node `nid`: either the decremented
node value, or (on release) the node's disappearance from both pools. -/
def updateWorldNode (w : World) (nid : Nat) (res : Option FdNode) : World :=
  match res with
  | some m =>
    { w with driver.fds := replaceNode w.driver.fds nid m,
             detached := replaceNode w.detached nid m }
  | none =>
    { w with driver.fds := removeNode w.driver.fds nid,
             detached := removeNode w.detached nid }

/-- First half of `on_readable_cb` (before the driver mutex is taken): clear
`readable_registered` under the node mutex; on success feed the descriptor to
`ares_process_fd` (readable position, `ARES_SOCKET_BAD` for write); on error
call `ares_cancel`; then drop the registration's ref — note the driver mutex
is not held at that unref. -/
def on_readable_pre (w : World) (nid : Nat) (isError : Bool) :
    World × List Ev :=
  match findNode (allNodes w) nid with
  | none => (w, [])
  | some fdn =>
    let fdn1 := { fdn with readable_registered := false }
    let engineEv := if isError then Ev.aresCancel
                    else Ev.aresProcessFd fdn1.fd ARES_SOCKET_BAD
    let u := fd_node_unref false fdn1
    (updateWorldNode w nid u.1, engineEv :: u.2)

/-- Second half shared by both completion handlers: take the driver mutex and
re-run reconciliation. -/
def on_readable_cb (w : World) (nid : Nat) (isError : Bool)
    (snap : List SockInfo) : World × List Ev :=
  let p := on_readable_pre w nid isError
  let r := grpc_ares_notify_on_event_locked p.1 snap
  (r.1, p.2 ++ r.2)

/-- First half of `on_writable_cb`, symmetric to `on_readable_pre`: clear
`writable_registered`; on success `ares_process_fd` gets `ARES_SOCKET_BAD`
in the readable position and the descriptor in the writable one. -/
def on_writable_pre (w : World) (nid : Nat) (isError : Bool) :
    World × List Ev :=
  match findNode (allNodes w) nid with
  | none => (w, [])
  | some fdn =>
    let fdn1 := { fdn with writable_registered := false }
    let engineEv := if isError then Ev.aresCancel
                    else Ev.aresProcessFd ARES_SOCKET_BAD fdn1.fd
    let u := fd_node_unref false fdn1
    (updateWorldNode w nid u.1, engineEv :: u.2)

/-- Model of `on_writable_cb`. -/
def on_writable_cb (w : World) (nid : Nat) (isError : Bool)
    (snap : List SockInfo) : World × List Ev :=
  let p := on_writable_pre w nid isError
  let r := grpc_ares_notify_on_event_locked p.1 snap
  (r.1, p.2 ++ r.2)

/-- The shutdown loop of `grpc_ares_ev_driver_destroy`, exactly as written:
`for (fdn = fds; fdn; fdn = fdn->next) { grpc_fd_shutdown(fdn); fdn = fdn->next; }`.
The body advances the cursor a second time, so the loop shuts down the nodes
at positions 0, 2, 4, …; on an odd-length list the update clause dereferences
a null cursor (modelled as `none`). -/
def destroy_shutdowns : List FdNode → Option (List Ev)
  | [] => some []
  | [n] =>
    let _ := Ev.fdShutdown n.nodeId n.fd
    none
  | a :: _ :: rest =>
    (destroy_shutdowns rest).map
      (fun evs => Ev.fdShutdown a.nodeId a.fd :: evs)

/-- Model of `grpc_ares_ev_driver_destroy`: run the shutdown loop under the
driver mutex (state is otherwise untouched; the actual teardown closure is
scheduled on the exec_ctx to run after the shutdown wave).  `none` is the
null-cursor crash of the loop. -/
def grpc_ares_ev_driver_destroy (w : World) : Option (World × List Ev) :=
  (destroy_shutdowns w.driver.fds).map (fun evs => (w, evs))

/-- Model of `grpc_ares_ev_driver_create`.  `grpc_ares_wrapper.c` is not part
of the sources, so `grpc_ares_init` is modelled from the spec: a process-wide
engine-library reference count, incremented on each driver's creation.
`aresInitStatus = 0` stands for `ARES_SUCCESS` from `ares_init`.  On
`ares_init` failure the driver allocation is freed and the error returned;
the code performs no decrement of the process-wide count on that path. -/
def grpc_ares_ev_driver_create (initCount : Nat) (grpcAresInitOk : Bool)
    (aresInitStatus : Nat) : Except Unit World × Nat :=
  if grpcAresInitOk then
    let c := initCount + 1
    if aresInitStatus = 0 then
      (Except.ok ⟨⟨[], false⟩, [], 0⟩, c)
    else
      (Except.error (), c)
  else (Except.error (), initCount)

/-! Derived notions used by the verification. -/

/-- Refcount discipline of a node linked into the driver's list: one ref for
list membership plus one per registered closure. -/
def nodeRefsOk (n : FdNode) : Prop :=
  n.refs = 1 + n.readable_registered.toNat + n.writable_registered.toNat

instance (n : FdNode) : Decidable (nodeRefsOk n) := by
  unfold nodeRefsOk; infer_instance

/-- Refcount discipline of an unlinked node: one ref per pending
registration, and at least one (otherwise it would have been freed). -/
def detachedOk (n : FdNode) : Prop :=
  n.refs = n.readable_registered.toNat + n.writable_registered.toNat ∧ 0 < n.refs

instance (n : FdNode) : Decidable (detachedOk n) := by
  unfold detachedOk; infer_instance

/-- The refcount invariant over the whole model state. -/
def WInv (w : World) : Prop :=
  (∀ n ∈ w.driver.fds, nodeRefsOk n) ∧ (∀ n ∈ w.detached, detachedOk n)

instance (w : World) : Decidable (WInv w) := by
  unfold WInv; infer_instance

/-- Node identities (heap addresses) are pairwise distinct. -/
def distinctIds (w : World) : Prop :=
  ((allNodes w).map FdNode.nodeId).Nodup

instance (w : World) : Decidable (distinctIds w) := by
  unfold distinctIds; infer_instance

/-- First node of the list wrapping descriptor `d`, without unlinking it. -/
def findByFd : List FdNode → Int → Option FdNode
  | [], _ => none
  | n :: rest, d => if n.fd = d then some n else findByFd rest d

/-- Registration flags held for descriptor `d` before a reconciliation pass
(false when no node wraps `d`). -/
def oldFlags (l : List FdNode) (d : Int) : Bool × Bool :=
  match findByFd l d with
  | some n => (n.readable_registered, n.writable_registered)
  | none => (false, false)

/-- Descriptors of the slots that participate in reconciliation. -/
def activeFds (snap : List SockInfo) : List Int :=
  (snap.filter activeSlot).map SockInfo.fd

/-- What one reconciliation pass makes of the node for slot `s`, given the
pre-pass list `orig`: it wraps the slot's descriptor, each flag is the
reported bit joined with any still-pending pre-pass registration, and the
refcount discipline holds. -/
def slotNodeSpec (orig : List FdNode) (s : SockInfo) (n : FdNode) : Prop :=
  n.fd = s.fd ∧
  n.readable_registered = ((oldFlags orig s.fd).1 || s.readable) ∧
  n.writable_registered = ((oldFlags orig s.fd).2 || s.writable) ∧
  nodeRefsOk n

instance (orig : List FdNode) (s : SockInfo) (n : FdNode) :
    Decidable (slotNodeSpec orig s n) := by
  unfold slotNodeSpec; infer_instance

/-- Sum of all reference counts held by the listed nodes. -/
def totalRefs (l : List FdNode) : Nat := (l.map FdNode.refs).sum

/-- Events that the registration phase of reconciliation may emit. -/
def regPhaseEv : Ev → Bool
  | .pollsetAddFd true _ _ => true
  | .notifyOnRead _ _ => true
  | .notifyOnWrite _ _ => true
  | _ => false

/-- Events that the leftover-shutdown phase of reconciliation may emit. -/
def leftoverEvOk : Ev → Bool
  | .fdShutdown _ _ => true
  | .pollsetDelFd true _ _ => true
  | .fdOrphan _ _ => true
  | _ => false

/-- Calls into the resolution engine. -/
def isEngineCall : Ev → Bool
  | .aresProcessFd _ _ => true
  | .aresCancel => true
  | _ => false

/-- A pollset-set mutation performed without the driver mutex. -/
def isUnlockedPollsetMut : Ev → Bool
  | .pollsetAddFd false _ _ => true
  | .pollsetDelFd false _ _ => true
  | _ => false

/-- Concrete four-step run used to exhibit behavior after the driver went
idle: `start` with `{5: read, 6: read}`, two successful read firings on
node 6 (snapshots `{6: read}`, then `{}`) leaving the driver idle with
node 5 detached and its read registration pending, then that registration
firing with an error while the engine reports `{7: read}`. -/
def idleFiringStep : World × List Ev :=
  on_readable_cb (on_readable_cb (on_readable_cb
    (grpc_ares_ev_driver_start ⟨⟨[], false⟩, [], 0⟩
      [⟨5, true, false⟩, ⟨6, true, false⟩]).1
    1 false [⟨6, true, false⟩]).1
    1 false []).1
    0 true [⟨7, true, false⟩]

/-! Theorems.  First a layer of helper lemmas about the building blocks. -/

theorem maybe_register_read_node (s : SockInfo) (n : FdNode) :
    (maybe_register_read s n).1 =
      { n with readable_registered := n.readable_registered || s.readable,
               refs := n.refs + (s.readable && !n.readable_registered).toNat } := by
  obtain ⟨ni, nf, nr, nw, nrefs⟩ := n
  unfold maybe_register_read
  cases hs : s.readable <;> cases nr <;> simp [hs]

theorem maybe_register_write_node (s : SockInfo) (n : FdNode) :
    (maybe_register_write s n).1 =
      { n with writable_registered := n.writable_registered || s.writable,
               refs := n.refs + (s.writable && !n.writable_registered).toNat } := by
  obtain ⟨ni, nf, nr, nw, nrefs⟩ := n
  unfold maybe_register_write
  cases hs : s.writable <;> cases nw <;> simp [hs]

theorem maybe_register_read_evs {s : SockInfo} {n : FdNode} {e : Ev}
    (h : e ∈ (maybe_register_read s n).2) : e = Ev.notifyOnRead n.nodeId n.fd := by
  unfold maybe_register_read at h
  split at h <;> simp_all

theorem maybe_register_write_evs {s : SockInfo} {n : FdNode} {e : Ev}
    (h : e ∈ (maybe_register_write s n).2) : e = Ev.notifyOnWrite n.nodeId n.fd := by
  unfold maybe_register_write at h
  split at h <;> simp_all

theorem nodeRefsOk_register_read (s : SockInfo) {n : FdNode} (h : nodeRefsOk n) :
    nodeRefsOk (maybe_register_read s n).1 := by
  rw [maybe_register_read_node]
  unfold nodeRefsOk at h ⊢
  cases hs : s.readable <;> cases hn : n.readable_registered <;>
    simp [hs, hn] at h ⊢ <;> omega

theorem nodeRefsOk_register_write (s : SockInfo) {n : FdNode} (h : nodeRefsOk n) :
    nodeRefsOk (maybe_register_write s n).1 := by
  rw [maybe_register_write_node]
  unfold nodeRefsOk at h ⊢
  cases hs : s.writable <;> cases hn : n.writable_registered <;>
    simp [hs, hn] at h ⊢ <;> omega

theorem nodeRefsOk_new (nid : Nat) (d : Int) : nodeRefsOk (new_fd_node nid d) := by
  simp [new_fd_node, nodeRefsOk]

theorem pop_fd_node_perm {l : List FdNode} {d : Int} {n : FdNode} {rest : List FdNode}
    (h : pop_fd_node l d = some (n, rest)) : l.Perm (n :: rest) := by
  induction l generalizing rest with
  | nil => simp [pop_fd_node] at h
  | cons a t ih =>
    unfold pop_fd_node at h
    by_cases ha : a.fd = d
    · simp only [if_pos ha, Option.some.injEq, Prod.mk.injEq] at h
      obtain ⟨rfl, rfl⟩ := h
      exact List.Perm.refl _
    · simp only [if_neg ha] at h
      cases hp : pop_fd_node t d with
      | none => rw [hp] at h; exact absurd h (by simp)
      | some p =>
        obtain ⟨m, rest2⟩ := p
        rw [hp] at h
        simp only [Option.some.injEq, Prod.mk.injEq] at h
        obtain ⟨rfl, rfl⟩ := h
        exact ((ih hp).cons a).trans (List.Perm.swap _ _ _)

theorem pop_fd_node_fd {l : List FdNode} {d : Int} {n : FdNode} {rest : List FdNode}
    (h : pop_fd_node l d = some (n, rest)) : n.fd = d := by
  induction l generalizing rest with
  | nil => simp [pop_fd_node] at h
  | cons a t ih =>
    unfold pop_fd_node at h
    by_cases ha : a.fd = d
    · simp only [if_pos ha, Option.some.injEq, Prod.mk.injEq] at h
      obtain ⟨rfl, rfl⟩ := h
      exact ha
    · simp only [if_neg ha] at h
      cases hp : pop_fd_node t d with
      | none => rw [hp] at h; exact absurd h (by simp)
      | some p =>
        obtain ⟨m, rest2⟩ := p
        rw [hp] at h
        simp only [Option.some.injEq, Prod.mk.injEq] at h
        obtain ⟨rfl, rfl⟩ := h
        exact ih hp

theorem pop_fd_node_find {l : List FdNode} {d : Int} {n : FdNode} {rest : List FdNode}
    (h : pop_fd_node l d = some (n, rest)) : findByFd l d = some n := by
  induction l generalizing rest with
  | nil => simp [pop_fd_node] at h
  | cons a t ih =>
    unfold pop_fd_node at h
    unfold findByFd
    by_cases ha : a.fd = d
    · simp only [if_pos ha, Option.some.injEq, Prod.mk.injEq] at h
      obtain ⟨rfl, rfl⟩ := h
      simp [ha]
    · simp only [if_neg ha] at h ⊢
      cases hp : pop_fd_node t d with
      | none => rw [hp] at h; exact absurd h (by simp)
      | some p =>
        obtain ⟨m, rest2⟩ := p
        rw [hp] at h
        simp only [Option.some.injEq, Prod.mk.injEq] at h
        obtain ⟨rfl, rfl⟩ := h
        exact ih hp

theorem pop_fd_node_none_of {l : List FdNode} {d : Int}
    (h : ∀ m ∈ l, m.fd ≠ d) : pop_fd_node l d = none := by
  induction l with
  | nil => rfl
  | cons a t ih =>
    unfold pop_fd_node
    rw [if_neg (h a (List.mem_cons_self a t)),
        ih (fun m hm => h m (List.mem_cons_of_mem a hm))]

theorem pop_fd_node_none_mem {l : List FdNode} {d : Int}
    (h : pop_fd_node l d = none) : ∀ m ∈ l, m.fd ≠ d := by
  induction l with
  | nil => intro m hm; simp at hm
  | cons a t ih =>
    unfold pop_fd_node at h
    by_cases ha : a.fd = d
    · rw [if_pos ha] at h; exact absurd h (by simp)
    · rw [if_neg ha] at h
      intro m hm
      rcases List.mem_cons.mp hm with rfl | hm2
      · exact ha
      · cases hp : pop_fd_node t d with
        | none => exact ih hp m hm2
        | some p =>
          obtain ⟨x, rest2⟩ := p
          rw [hp] at h
          exact absurd h (by simp)

theorem findByFd_none_iff {l : List FdNode} {d : Int} :
    findByFd l d = none ↔ ∀ m ∈ l, m.fd ≠ d := by
  induction l with
  | nil => simp [findByFd]
  | cons a t ih =>
    unfold findByFd
    by_cases ha : a.fd = d
    · simp [ha]
    · simp [ha, ih]

theorem pop_fd_node_find_other {l : List FdNode} {d e : Int} {n : FdNode}
    {rest : List FdNode} (h : pop_fd_node l d = some (n, rest)) (hne : e ≠ d) :
    findByFd rest e = findByFd l e := by
  induction l generalizing rest with
  | nil => simp [pop_fd_node] at h
  | cons a t ih =>
    unfold pop_fd_node at h
    by_cases ha : a.fd = d
    · simp only [if_pos ha, Option.some.injEq, Prod.mk.injEq] at h
      obtain ⟨rfl, rfl⟩ := h
      simp only [findByFd]
      rw [if_neg (fun hc => hne (by rw [← hc]; exact ha))]
    · simp only [if_neg ha] at h
      cases hp : pop_fd_node t d with
      | none => rw [hp] at h; exact absurd h (by simp)
      | some p =>
        obtain ⟨m, rest2⟩ := p
        rw [hp] at h
        simp only [Option.some.injEq, Prod.mk.injEq] at h
        obtain ⟨rfl, rfl⟩ := h
        simp only [findByFd]
        by_cases hae : a.fd = e
        · simp [hae]
        · simp only [if_neg hae]
          exact ih hp

theorem foldl_inv {α β : Type} (f : α → β → α) (P : α → Prop) (l : List β)
    (hstep : ∀ x b, b ∈ l → P x → P (f x b)) :
    ∀ a, P a → P (l.foldl f a) := by
  induction l with
  | nil => intro a h; exact h
  | cons b t ih =>
    intro a h
    exact ih (fun x c hc hx => hstep x c (List.mem_cons_of_mem b hc) hx) (f a b)
      (hstep a b (List.mem_cons_self b t) h)

theorem findNode_mem {l : List FdNode} {nid : Nat} {x : FdNode}
    (h : findNode l nid = some x) : x ∈ l ∧ x.nodeId = nid := by
  induction l with
  | nil => simp [findNode] at h
  | cons a t ih =>
    unfold findNode at h
    by_cases ha : a.nodeId = nid
    · simp only [if_pos ha, Option.some.injEq] at h
      subst h
      exact ⟨List.mem_cons_self _ _, ha⟩
    · simp only [if_neg ha] at h
      obtain ⟨h1, h2⟩ := ih h
      exact ⟨List.mem_cons_of_mem a h1, h2⟩

theorem findNode_split {l1 l2 : List FdNode} {x : FdNode} {nid : Nat}
    (h1 : ∀ y ∈ l1, y.nodeId ≠ nid) (hx : x.nodeId = nid) :
    findNode (l1 ++ x :: l2) nid = some x := by
  induction l1 with
  | nil => simp [findNode, hx]
  | cons a t ih =>
    unfold findNode
    rw [List.cons_append]
    show (if a.nodeId = nid then some a else findNode (t ++ x :: l2) nid) = some x
    rw [if_neg (h1 a (List.mem_cons_self a t))]
    exact ih (fun y hy => h1 y (List.mem_cons_of_mem a hy))

theorem replaceNode_mem {l : List FdNode} {nid : Nat} {m x : FdNode}
    (h : x ∈ replaceNode l nid m) : x = m ∨ x ∈ l := by
  induction l with
  | nil => simp [replaceNode] at h
  | cons a t ih =>
    unfold replaceNode at h
    rcases List.mem_cons.mp h with h1 | h1
    · by_cases ha : a.nodeId = nid
      · rw [if_pos ha] at h1; exact Or.inl h1
      · rw [if_neg ha] at h1; exact Or.inr (h1 ▸ List.mem_cons_self a t)
    · rcases ih h1 with h2 | h2
      · exact Or.inl h2
      · exact Or.inr (List.mem_cons_of_mem a h2)

theorem replaceNode_of_none {l : List FdNode} {nid : Nat} {m : FdNode}
    (h : ∀ y ∈ l, y.nodeId ≠ nid) : replaceNode l nid m = l := by
  induction l with
  | nil => rfl
  | cons a t ih =>
    unfold replaceNode
    rw [if_neg (h a (List.mem_cons_self a t)),
        ih (fun y hy => h y (List.mem_cons_of_mem a hy))]

theorem removeNode_subset {l : List FdNode} {nid : Nat} {x : FdNode}
    (h : x ∈ removeNode l nid) : x ∈ l := by
  induction l with
  | nil => simp [removeNode] at h
  | cons a t ih =>
    unfold removeNode at h
    by_cases ha : a.nodeId = nid
    · rw [if_pos ha] at h
      exact List.mem_cons_of_mem a (ih h)
    · rw [if_neg ha] at h
      rcases List.mem_cons.mp h with h1 | h1
      · exact h1 ▸ List.mem_cons_self a t
      · exact List.mem_cons_of_mem a (ih h1)

theorem removeNode_of_none {l : List FdNode} {nid : Nat}
    (h : ∀ y ∈ l, y.nodeId ≠ nid) : removeNode l nid = l := by
  induction l with
  | nil => rfl
  | cons a t ih =>
    unfold removeNode
    rw [if_neg (h a (List.mem_cons_self a t)),
        ih (fun y hy => h y (List.mem_cons_of_mem a hy))]

theorem replaceNode_split {l1 l2 : List FdNode} {nid : Nat} {m x : FdNode}
    (h1 : ∀ y ∈ l1, y.nodeId ≠ nid) (hx : x.nodeId = nid)
    (h2 : ∀ y ∈ l2, y.nodeId ≠ nid) :
    replaceNode (l1 ++ x :: l2) nid m = l1 ++ m :: l2 := by
  induction l1 with
  | nil =>
    simp only [List.nil_append]
    unfold replaceNode
    rw [if_pos hx, replaceNode_of_none h2]
  | cons a t ih =>
    rw [List.cons_append]
    unfold replaceNode
    rw [if_neg (h1 a (List.mem_cons_self a t)),
        ih (fun y hy => h1 y (List.mem_cons_of_mem a hy))]
    rfl

theorem removeNode_split {l1 l2 : List FdNode} {nid : Nat} {x : FdNode}
    (h1 : ∀ y ∈ l1, y.nodeId ≠ nid) (hx : x.nodeId = nid)
    (h2 : ∀ y ∈ l2, y.nodeId ≠ nid) :
    removeNode (l1 ++ x :: l2) nid = l1 ++ l2 := by
  induction l1 with
  | nil =>
    simp only [List.nil_append]
    unfold removeNode
    rw [if_pos hx, removeNode_of_none h2]
  | cons a t ih =>
    rw [List.cons_append]
    unfold removeNode
    rw [if_neg (h1 a (List.mem_cons_self a t)),
        ih (fun y hy => h1 y (List.mem_cons_of_mem a hy))]
    rfl

theorem mem_split_unique {l : List FdNode} {x : FdNode}
    (hnd : (l.map FdNode.nodeId).Nodup) (hx : x ∈ l) :
    ∃ l1 l2, l = l1 ++ x :: l2 ∧ (∀ y ∈ l1, y.nodeId ≠ x.nodeId) ∧
      ∀ y ∈ l2, y.nodeId ≠ x.nodeId := by
  obtain ⟨l1, l2, rfl⟩ := List.append_of_mem hx
  rw [List.map_append, List.map_cons] at hnd
  have hnotin := (List.nodup_cons.mp (List.nodup_middle.mp hnd)).1
  rw [List.mem_append] at hnotin
  push_neg at hnotin
  refine ⟨l1, l2, rfl, ?_, ?_⟩
  · intro y hy hid
    exact hnotin.1 (hid ▸ List.mem_map_of_mem FdNode.nodeId hy)
  · intro y hy hid
    exact hnotin.2 (hid ▸ List.mem_map_of_mem FdNode.nodeId hy)

theorem findNode_located {w : World} {nid : Nat} {fdn : FdNode}
    (hWF : distinctIds w) (h : findNode (allNodes w) nid = some fdn) :
    fdn.nodeId = nid ∧
    ((fdn ∈ w.driver.fds ∧ ∀ y ∈ w.detached, y.nodeId ≠ nid) ∨
     (fdn ∈ w.detached ∧ ∀ y ∈ w.driver.fds, y.nodeId ≠ nid)) := by
  obtain ⟨hmem, hid⟩ := findNode_mem h
  refine ⟨hid, ?_⟩
  unfold distinctIds allNodes at hWF
  rw [List.map_append] at hWF
  obtain ⟨-, -, hdisj⟩ := List.nodup_append.mp hWF
  rcases List.mem_append.mp hmem with hside | hside
  · refine Or.inl ⟨hside, fun y hy hyid => ?_⟩
    exact hdisj (hid ▸ List.mem_map_of_mem FdNode.nodeId hside)
      (hyid ▸ List.mem_map_of_mem FdNode.nodeId hy)
  · refine Or.inr ⟨hside, fun y hy hyid => ?_⟩
    exact hdisj (hyid ▸ List.mem_map_of_mem FdNode.nodeId hy)
      (hid ▸ List.mem_map_of_mem FdNode.nodeId hside)

theorem process_slot_inactive {st : LoopSt} {s : SockInfo}
    (hs : activeSlot s = false) : process_slot st s = st := by
  unfold process_slot
  rw [if_neg (by simp [hs])]

theorem process_slot_active_pop {st : LoopSt} {s : SockInfo} {m : FdNode}
    {rest : List FdNode} (hs : activeSlot s = true)
    (hp : pop_fd_node st.old s.fd = some (m, rest)) :
    process_slot st s =
      ⟨rest, (maybe_register_write s (maybe_register_read s m).1).1 :: st.newList,
       st.nextId,
       st.evs ++ (maybe_register_read s m).2
         ++ (maybe_register_write s (maybe_register_read s m).1).2⟩ := by
  unfold process_slot
  rw [if_pos hs, hp]

theorem process_slot_active_new {st : LoopSt} {s : SockInfo}
    (hs : activeSlot s = true) (hp : pop_fd_node st.old s.fd = none) :
    process_slot st s =
      ⟨st.old,
       (maybe_register_write s (maybe_register_read s (new_fd_node st.nextId s.fd)).1).1
         :: st.newList,
       st.nextId + 1,
       st.evs ++ [Ev.pollsetAddFd true st.nextId s.fd]
         ++ (maybe_register_read s (new_fd_node st.nextId s.fd)).2
         ++ (maybe_register_write s (maybe_register_read s (new_fd_node st.nextId s.fd)).1).2⟩ := by
  unfold process_slot
  rw [if_pos hs, hp]

theorem activeFds_cons_active {s : SockInfo} {t : List SockInfo}
    (hs : activeSlot s = true) : activeFds (s :: t) = s.fd :: activeFds t := by
  unfold activeFds
  simp [List.filter_cons, hs]

theorem activeFds_cons_inactive {s : SockInfo} {t : List SockInfo}
    (hs : activeSlot s = false) : activeFds (s :: t) = activeFds t := by
  unfold activeFds
  simp [List.filter_cons, hs]

theorem fold_old_subset (snap : List SockInfo) :
    ∀ (st : LoopSt) (n : FdNode), n ∈ (snap.foldl process_slot st).old →
      n ∈ st.old := by
  induction snap with
  | nil => exact fun _ _ h => h
  | cons s t ih =>
    intro st n h
    rw [List.foldl_cons] at h
    have h2 := ih (process_slot st s) n h
    by_cases hs : activeSlot s
    · cases hp : pop_fd_node st.old s.fd with
      | some p =>
        obtain ⟨m, rest⟩ := p
        rw [process_slot_active_pop hs hp] at h2
        exact (pop_fd_node_perm hp).symm.subset (List.mem_cons_of_mem m h2)
      | none =>
        rw [process_slot_active_new hs hp] at h2
        exact h2
    · rw [process_slot_inactive (Bool.not_eq_true _ ▸ hs)] at h2
      exact h2

theorem stale_stays_in_old (snap : List SockInfo) :
    ∀ (st : LoopSt) (n : FdNode), n ∈ st.old → n.fd ∉ activeFds snap →
      n ∈ (snap.foldl process_slot st).old := by
  induction snap with
  | nil => exact fun _ _ h _ => h
  | cons s t ih =>
    intro st n h habs
    rw [List.foldl_cons]
    by_cases hs : activeSlot s
    · rw [activeFds_cons_active hs] at habs
      have hne : n.fd ≠ s.fd := fun hc => habs (hc ▸ List.mem_cons_self _ _)
      have habs2 : n.fd ∉ activeFds t := fun hc => habs (List.mem_cons_of_mem _ hc)
      cases hp : pop_fd_node st.old s.fd with
      | some p =>
        obtain ⟨m, rest⟩ := p
        refine ih (process_slot st s) n ?_ habs2
        rw [process_slot_active_pop hs hp]
        rcases List.mem_cons.mp ((pop_fd_node_perm hp).subset h) with rfl | hr
        · exact absurd (pop_fd_node_fd hp) hne
        · exact hr
      | none =>
        refine ih (process_slot st s) n ?_ habs2
        rw [process_slot_active_new hs hp]
        exact h
    · have hs2 : activeSlot s = false := Bool.not_eq_true _ ▸ hs
      rw [process_slot_inactive hs2]
      rw [activeFds_cons_inactive hs2] at habs
      exact ih st n h habs

theorem fold_refsOk (snap : List SockInfo) :
    ∀ st : LoopSt,
      ((∀ n ∈ st.old, nodeRefsOk n) ∧ ∀ n ∈ st.newList, nodeRefsOk n) →
      (∀ n ∈ (snap.foldl process_slot st).old, nodeRefsOk n) ∧
        ∀ n ∈ (snap.foldl process_slot st).newList, nodeRefsOk n := by
  intro st h
  refine foldl_inv process_slot
    (fun x => (∀ n ∈ x.old, nodeRefsOk n) ∧ ∀ n ∈ x.newList, nodeRefsOk n)
    snap ?_ st h
  intro x s _ hx
  by_cases hs : activeSlot s
  · cases hp : pop_fd_node x.old s.fd with
    | some p =>
      obtain ⟨m, rest⟩ := p
      rw [process_slot_active_pop hs hp]
      have hperm := pop_fd_node_perm hp
      refine ⟨fun n hn => hx.1 n (hperm.symm.subset (List.mem_cons_of_mem m hn)),
              fun n hn => ?_⟩
      rcases List.mem_cons.mp hn with rfl | hr
      · exact nodeRefsOk_register_write s
          (nodeRefsOk_register_read s (hx.1 m (hperm.symm.subset (List.mem_cons_self _ _))))
      · exact hx.2 n hr
    | none =>
      rw [process_slot_active_new hs hp]
      refine ⟨hx.1, fun n hn => ?_⟩
      rcases List.mem_cons.mp hn with rfl | hr
      · exact nodeRefsOk_register_write s
          (nodeRefsOk_register_read s (nodeRefsOk_new x.nextId s.fd))
      · exact hx.2 n hr
  · rw [process_slot_inactive (Bool.not_eq_true _ ▸ hs)]
    exact hx

theorem fold_evs_classified (snap : List SockInfo) :
    ∀ (st : LoopSt) (e : Ev), e ∈ (snap.foldl process_slot st).evs →
      e ∈ st.evs ∨ regPhaseEv e = true := by
  induction snap with
  | nil => exact fun _ _ h => Or.inl h
  | cons s t ih =>
    intro st e h
    rw [List.foldl_cons] at h
    rcases ih (process_slot st s) e h with h2 | h2
    · by_cases hs : activeSlot s
      · cases hp : pop_fd_node st.old s.fd with
        | some p =>
          obtain ⟨m, rest⟩ := p
          rw [process_slot_active_pop hs hp] at h2
          rcases List.mem_append.mp h2 with h3 | h3
          · rcases List.mem_append.mp h3 with h4 | h4
            · exact Or.inl h4
            · right; rw [maybe_register_read_evs h4]; rfl
          · right; rw [maybe_register_write_evs h3]; rfl
        | none =>
          rw [process_slot_active_new hs hp] at h2
          rcases List.mem_append.mp h2 with h3 | h3
          · rcases List.mem_append.mp h3 with h4 | h4
            · rcases List.mem_append.mp h4 with h5 | h5
              · exact Or.inl h5
              · right
                rcases List.mem_singleton.mp h5 with rfl
                rfl
            · right; rw [maybe_register_read_evs h4]; rfl
          · right; rw [maybe_register_write_evs h3]; rfl
      · rw [process_slot_inactive (Bool.not_eq_true _ ▸ hs)] at h2
        exact Or.inl h2
    · exact Or.inr h2

theorem fd_node_unref_release (lk : Bool) (n : FdNode) (h : n.refs = 1) :
    fd_node_unref lk n =
      (none, [Ev.pollsetDelFd lk n.nodeId n.fd, Ev.fdShutdown n.nodeId n.fd,
              Ev.fdOrphan n.nodeId n.fd]) := by
  unfold fd_node_unref
  rw [if_pos h]

theorem fd_node_unref_keep (lk : Bool) (n : FdNode) (h : n.refs ≠ 1) :
    fd_node_unref lk n = (some { n with refs := n.refs - 1 }, []) := by
  unfold fd_node_unref
  rw [if_neg h]

theorem shutdown_leftovers_cons_release {a : FdNode} {t : List FdNode}
    (h : a.refs = 1) :
    shutdown_leftovers (a :: t) =
      ((shutdown_leftovers t).1,
       (Ev.fdShutdown a.nodeId a.fd ::
          [Ev.pollsetDelFd true a.nodeId a.fd, Ev.fdShutdown a.nodeId a.fd,
           Ev.fdOrphan a.nodeId a.fd]) ++ (shutdown_leftovers t).2) := by
  show (let u := fd_node_unref true a
        let r := shutdown_leftovers t
        (match u.1 with
         | some m => m :: r.1
         | none => r.1,
         Ev.fdShutdown a.nodeId a.fd :: u.2 ++ r.2)) = _
  rw [fd_node_unref_release true a h]

theorem shutdown_leftovers_cons_keep {a : FdNode} {t : List FdNode}
    (h : a.refs ≠ 1) :
    shutdown_leftovers (a :: t) =
      ({ a with refs := a.refs - 1 } :: (shutdown_leftovers t).1,
       (Ev.fdShutdown a.nodeId a.fd :: ([] : List Ev)) ++ (shutdown_leftovers t).2) := by
  show (let u := fd_node_unref true a
        let r := shutdown_leftovers t
        (match u.1 with
         | some m => m :: r.1
         | none => r.1,
         Ev.fdShutdown a.nodeId a.fd :: u.2 ++ r.2)) = _
  rw [fd_node_unref_keep true a h]

theorem shutdown_leftovers_detachedOk {l : List FdNode}
    (h : ∀ n ∈ l, nodeRefsOk n) :
    ∀ m ∈ (shutdown_leftovers l).1, detachedOk m := by
  induction l with
  | nil => intro m hm; simp [shutdown_leftovers] at hm
  | cons a t ih =>
    intro m hm
    have ht : ∀ n ∈ t, nodeRefsOk n := fun n hn => h n (List.mem_cons_of_mem a hn)
    by_cases ha : a.refs = 1
    · rw [shutdown_leftovers_cons_release ha] at hm
      exact ih ht m hm
    · rw [shutdown_leftovers_cons_keep ha] at hm
      rcases List.mem_cons.mp hm with rfl | hr
      · have hOk := h a (List.mem_cons_self a t)
        unfold nodeRefsOk at hOk
        unfold detachedOk
        cases hr1 : a.readable_registered <;> cases hw1 : a.writable_registered <;>
          rw [hr1, hw1] at hOk <;>
          simp only [hr1, hw1, Bool.toNat_false, Bool.toNat_true] at hOk ⊢ <;>
          omega
      · exact ih ht m hr

theorem shutdown_leftovers_facts {l : List FdNode} {n : FdNode} (hn : n ∈ l) :
    Ev.fdShutdown n.nodeId n.fd ∈ (shutdown_leftovers l).2 ∧
    (n.refs = 1 → Ev.fdOrphan n.nodeId n.fd ∈ (shutdown_leftovers l).2) ∧
    (n.refs ≠ 1 → { n with refs := n.refs - 1 } ∈ (shutdown_leftovers l).1) := by
  induction l with
  | nil => simp at hn
  | cons a t ih =>
    rcases List.mem_cons.mp hn with rfl | hr
    · by_cases ha : n.refs = 1
      · rw [shutdown_leftovers_cons_release ha]
        exact ⟨by simp, fun _ => by simp, fun hc => absurd ha hc⟩
      · rw [shutdown_leftovers_cons_keep ha]
        exact ⟨by simp, fun hc => absurd hc ha, fun _ => List.mem_cons_self _ _⟩
    · have ih2 := ih hr
      by_cases ha : a.refs = 1
      · rw [shutdown_leftovers_cons_release ha]
        exact ⟨List.mem_append_right _ ih2.1,
               fun h1 => List.mem_append_right _ (ih2.2.1 h1),
               fun h1 => ih2.2.2 h1⟩
      · rw [shutdown_leftovers_cons_keep ha]
        exact ⟨List.mem_append_right _ ih2.1,
               fun h1 => List.mem_append_right _ (ih2.2.1 h1),
               fun h1 => List.mem_cons_of_mem _ (ih2.2.2 h1)⟩

theorem shutdown_leftovers_no_orphan {l : List FdNode} {i : Nat} {f : Int}
    (h : ∀ y ∈ l, y.nodeId = i → y.refs ≠ 1) :
    Ev.fdOrphan i f ∉ (shutdown_leftovers l).2 := by
  induction l with
  | nil => simp [shutdown_leftovers]
  | cons a t ih =>
    have ht := fun y hy => h y (List.mem_cons_of_mem a hy)
    by_cases ha : a.refs = 1
    · rw [shutdown_leftovers_cons_release ha]
      intro hc
      rcases List.mem_append.mp hc with h1 | h1
      · have hid : a.nodeId ≠ i := fun hidc => h a (List.mem_cons_self a t) hidc ha
        simp [List.mem_cons] at h1
        exact hid h1.1.symm
      · exact ih ht h1
    · rw [shutdown_leftovers_cons_keep ha]
      intro hc
      rcases List.mem_append.mp hc with h1 | h1
      · simp at h1
      · exact ih ht h1

theorem shutdown_leftovers_evs_classified {l : List FdNode} {e : Ev}
    (h : e ∈ (shutdown_leftovers l).2) : leftoverEvOk e = true := by
  induction l with
  | nil => simp [shutdown_leftovers] at h
  | cons a t ih =>
    by_cases ha : a.refs = 1
    · rw [shutdown_leftovers_cons_release ha] at h
      rcases List.mem_append.mp h with h1 | h1
      · simp [List.mem_cons] at h1
        rcases h1 with rfl | rfl | rfl | rfl <;> rfl
      · exact ih h1
    · rw [shutdown_leftovers_cons_keep ha] at h
      rcases List.mem_append.mp h with h1 | h1
      · simp at h1; subst h1; rfl
      · exact ih h1

theorem notify_evs_split {w : World} {snap : List SockInfo} {e : Ev}
    (h : e ∈ (grpc_ares_notify_on_event_locked w snap).2) :
    regPhaseEv e = true ∨ leftoverEvOk e = true := by
  simp only [grpc_ares_notify_on_event_locked] at h
  rcases List.mem_append.mp h with h1 | h1
  · rcases fold_evs_classified snap _ e h1 with h2 | h2
    · simp at h2
    · exact Or.inl h2
  · exact Or.inr (shutdown_leftovers_evs_classified h1)

theorem notify_evs_no_engine {w : World} {snap : List SockInfo} {e : Ev}
    (h : e ∈ (grpc_ares_notify_on_event_locked w snap).2) :
    isEngineCall e = false := by
  rcases notify_evs_split h with h1 | h1 <;>
    cases e <;> simp_all [regPhaseEv, leftoverEvOk, isEngineCall]

theorem notify_evs_locked {w : World} {snap : List SockInfo} {e : Ev}
    (h : e ∈ (grpc_ares_notify_on_event_locked w snap).2) :
    isUnlockedPollsetMut e = false := by
  rcases notify_evs_split h with h1 | h1 <;> cases e with
  | pollsetAddFd lk n f => cases lk <;> simp_all [regPhaseEv, leftoverEvOk, isUnlockedPollsetMut]
  | pollsetDelFd lk n f => cases lk <;> simp_all [regPhaseEv, leftoverEvOk, isUnlockedPollsetMut]
  | _ => simp_all [regPhaseEv, leftoverEvOk, isUnlockedPollsetMut]

theorem notify_no_orphan {w : World} {snap : List SockInfo} {i : Nat} {f : Int}
    (h : ∀ y ∈ (snap.foldl process_slot ⟨w.driver.fds, [], w.nextId, []⟩).old,
           y.nodeId = i → y.refs ≠ 1) :
    Ev.fdOrphan i f ∉ (grpc_ares_notify_on_event_locked w snap).2 := by
  intro hc
  simp only [grpc_ares_notify_on_event_locked] at hc
  rcases List.mem_append.mp hc with h1 | h1
  · rcases fold_evs_classified snap _ _ h1 with h2 | h2
    · simp at h2
    · simp [regPhaseEv] at h2
  · exact shutdown_leftovers_no_orphan h h1

theorem WInv_notify {w : World} (snap : List SockInfo) (h : WInv w) :
    WInv (grpc_ares_notify_on_event_locked w snap).1 := by
  obtain ⟨hfds, hdet⟩ := h
  have hst := fold_refsOk snap ⟨w.driver.fds, [], w.nextId, []⟩
    ⟨hfds, by intro n hn; simp at hn⟩
  constructor
  · intro n hn
    exact hst.2 n hn
  · intro n hn
    rcases List.mem_append.mp hn with h1 | h1
    · exact hdet n h1
    · exact shutdown_leftovers_detachedOk hst.1 n h1

theorem on_readable_pre_WInv {w : World} {nid : Nat} {err : Bool} {fdn : FdNode}
    (hInv : WInv w) (hWF : distinctIds w)
    (hfind : findNode (allNodes w) nid = some fdn)
    (hreg : fdn.readable_registered = true) :
    WInv (on_readable_pre w nid err).1 ∧
    (fdn.refs = 1 → fdn ∈ w.detached ∧ fdn.writable_registered = false) := by
  obtain ⟨hid, hloc⟩ := findNode_located hWF hfind
  have hunf : (on_readable_pre w nid err).1 =
      updateWorldNode w nid
        (fd_node_unref false { fdn with readable_registered := false }).1 := by
    unfold on_readable_pre
    rw [hfind]
  by_cases hr : fdn.refs = 1
  · have hrel := fd_node_unref_release false
        { fdn with readable_registered := false }
      (show ({ fdn with readable_registered := false }).refs = 1 from hr)
    constructor
    · rw [hunf, hrel]
      constructor
      · intro m hm
        exact hInv.1 m (removeNode_subset hm)
      · intro m hm
        exact hInv.2 m (removeNode_subset hm)
    · intro _
      rcases hloc with ⟨hmem, -⟩ | ⟨hmem, -⟩
      · exfalso
        have h1 := hInv.1 fdn hmem
        unfold nodeRefsOk at h1
        rw [hreg] at h1
        cases hw1 : fdn.writable_registered <;> rw [hw1] at h1 <;>
          simp only [Bool.toNat_false, Bool.toNat_true] at h1 <;> omega
      · have h1 := hInv.2 fdn hmem
        unfold detachedOk at h1
        rw [hreg] at h1
        refine ⟨hmem, ?_⟩
        cases hw1 : fdn.writable_registered
        · rfl
        · exfalso
          rw [hw1] at h1
          simp only [Bool.toNat_true] at h1
          omega
  · have hkeep := fd_node_unref_keep false
        { fdn with readable_registered := false }
      (show ({ fdn with readable_registered := false }).refs ≠ 1 from hr)
    refine ⟨?_, fun hc => absurd hc hr⟩
    rw [hunf, hkeep]
    rcases hloc with ⟨hmem, hnone⟩ | ⟨hmem, hnone⟩
    · constructor
      · intro m hm
        rcases replaceNode_mem hm with rfl | hm2
        · have h1 := hInv.1 fdn hmem
          unfold nodeRefsOk at h1 ⊢
          rw [hreg] at h1
          simp only [Bool.toNat_true] at h1
          cases hw1 : fdn.writable_registered <;> simp only [hw1] at h1 ⊢ <;>
            simp only [Bool.toNat_false, Bool.toNat_true] at h1 ⊢ <;> omega
        · exact hInv.1 m hm2
      · intro m hm
        have hm2 : m ∈ replaceNode w.detached nid _ := hm
        rw [replaceNode_of_none hnone] at hm2
        exact hInv.2 m hm2
    · constructor
      · intro m hm
        have hm2 : m ∈ replaceNode w.driver.fds nid _ := hm
        rw [replaceNode_of_none hnone] at hm2
        exact hInv.1 m hm2
      · intro m hm
        rcases replaceNode_mem hm with rfl | hm2
        · have h1 := hInv.2 fdn hmem
          unfold detachedOk at h1 ⊢
          rw [hreg] at h1
          simp only [Bool.toNat_true] at h1
          cases hw1 : fdn.writable_registered <;> simp only [hw1] at h1 ⊢ <;>
            simp only [Bool.toNat_false, Bool.toNat_true] at h1 ⊢ <;> omega
        · exact hInv.2 m hm2

theorem on_writable_pre_WInv {w : World} {nid : Nat} {err : Bool} {fdn : FdNode}
    (hInv : WInv w) (hWF : distinctIds w)
    (hfind : findNode (allNodes w) nid = some fdn)
    (hreg : fdn.writable_registered = true) :
    WInv (on_writable_pre w nid err).1 ∧
    (fdn.refs = 1 → fdn ∈ w.detached ∧ fdn.readable_registered = false) := by
  obtain ⟨hid, hloc⟩ := findNode_located hWF hfind
  have hunf : (on_writable_pre w nid err).1 =
      updateWorldNode w nid
        (fd_node_unref false { fdn with writable_registered := false }).1 := by
    unfold on_writable_pre
    rw [hfind]
  by_cases hr : fdn.refs = 1
  · have hrel := fd_node_unref_release false
        { fdn with writable_registered := false }
      (show ({ fdn with writable_registered := false }).refs = 1 from hr)
    constructor
    · rw [hunf, hrel]
      constructor
      · intro m hm
        exact hInv.1 m (removeNode_subset hm)
      · intro m hm
        exact hInv.2 m (removeNode_subset hm)
    · intro _
      rcases hloc with ⟨hmem, -⟩ | ⟨hmem, -⟩
      · exfalso
        have h1 := hInv.1 fdn hmem
        unfold nodeRefsOk at h1
        rw [hreg] at h1
        cases hr1 : fdn.readable_registered <;> rw [hr1] at h1 <;>
          simp only [Bool.toNat_false, Bool.toNat_true] at h1 <;> omega
      · have h1 := hInv.2 fdn hmem
        unfold detachedOk at h1
        rw [hreg] at h1
        refine ⟨hmem, ?_⟩
        cases hr1 : fdn.readable_registered
        · rfl
        · exfalso
          rw [hr1] at h1
          simp only [Bool.toNat_true] at h1
          omega
  · have hkeep := fd_node_unref_keep false
        { fdn with writable_registered := false }
      (show ({ fdn with writable_registered := false }).refs ≠ 1 from hr)
    refine ⟨?_, fun hc => absurd hc hr⟩
    rw [hunf, hkeep]
    rcases hloc with ⟨hmem, hnone⟩ | ⟨hmem, hnone⟩
    · constructor
      · intro m hm
        rcases replaceNode_mem hm with rfl | hm2
        · have h1 := hInv.1 fdn hmem
          unfold nodeRefsOk at h1 ⊢
          rw [hreg] at h1
          simp only [Bool.toNat_true] at h1
          cases hr1 : fdn.readable_registered <;> simp only [hr1] at h1 ⊢ <;>
            simp only [Bool.toNat_false, Bool.toNat_true] at h1 ⊢ <;> omega
        · exact hInv.1 m hm2
      · intro m hm
        have hm2 : m ∈ replaceNode w.detached nid _ := hm
        rw [replaceNode_of_none hnone] at hm2
        exact hInv.2 m hm2
    · constructor
      · intro m hm
        have hm2 : m ∈ replaceNode w.driver.fds nid _ := hm
        rw [replaceNode_of_none hnone] at hm2
        exact hInv.1 m hm2
      · intro m hm
        rcases replaceNode_mem hm with rfl | hm2
        · have h1 := hInv.2 fdn hmem
          unfold detachedOk at h1 ⊢
          rw [hreg] at h1
          simp only [Bool.toNat_true] at h1
          cases hr1 : fdn.readable_registered <;> simp only [hr1] at h1 ⊢ <;>
            simp only [Bool.toNat_false, Bool.toNat_true] at h1 ⊢ <;> omega
        · exact hInv.2 m hm2

theorem on_readable_cb_WInv {w : World} {nid : Nat} {err : Bool} {fdn : FdNode}
    (snap : List SockInfo) (hInv : WInv w) (hWF : distinctIds w)
    (hfind : findNode (allNodes w) nid = some fdn)
    (hreg : fdn.readable_registered = true) :
    WInv (on_readable_cb w nid err snap).1 := by
  have h1 := (@on_readable_pre_WInv w nid err fdn hInv hWF hfind hreg).1
  exact WInv_notify snap h1

theorem on_writable_cb_WInv {w : World} {nid : Nat} {err : Bool} {fdn : FdNode}
    (snap : List SockInfo) (hInv : WInv w) (hWF : distinctIds w)
    (hfind : findNode (allNodes w) nid = some fdn)
    (hreg : fdn.writable_registered = true) :
    WInv (on_writable_cb w nid err snap).1 := by
  have h1 := (@on_writable_pre_WInv w nid err fdn hInv hWF hfind hreg).1
  exact WInv_notify snap h1

theorem destroy_state {w : World} {r : World × List Ev}
    (h : grpc_ares_ev_driver_destroy w = some r) : r.1 = w := by
  unfold grpc_ares_ev_driver_destroy at h
  cases hd : destroy_shutdowns w.driver.fds with
  | none => rw [hd] at h; simp at h
  | some evs =>
    rw [hd] at h
    simp only [Option.map_some', Option.some.injEq] at h
    rw [← h]

theorem start_of_working (v : World) (snap : List SockInfo)
    (h : v.driver.working = true) :
    grpc_ares_ev_driver_start v snap = (v, []) := by
  unfold grpc_ares_ev_driver_start
  rw [if_pos h]

theorem start_of_not_working (v : World) (snap : List SockInfo)
    (h : v.driver.working = false) :
    grpc_ares_ev_driver_start v snap
      = grpc_ares_notify_on_event_locked { v with driver.working := true } snap := by
  unfold grpc_ares_ev_driver_start
  rw [if_neg (by rw [h]; exact Bool.false_ne_true)]

theorem fold_newList_nil (snap : List SockInfo) :
    ∀ st : LoopSt, (snap.foldl process_slot st).newList = [] →
      st.newList = [] ∧ ∀ s ∈ snap, activeSlot s = false := by
  induction snap with
  | nil => exact fun st h => ⟨h, by simp⟩
  | cons s t ih =>
    intro st h
    rw [List.foldl_cons] at h
    obtain ⟨h1, h2⟩ := ih (process_slot st s) h
    by_cases hs : activeSlot s
    · exfalso
      cases hp : pop_fd_node st.old s.fd with
      | some p =>
        obtain ⟨m, rest⟩ := p
        rw [process_slot_active_pop hs hp] at h1
        simp at h1
      | none =>
        rw [process_slot_active_new hs hp] at h1
        simp at h1
    · have hs2 : activeSlot s = false := Bool.not_eq_true _ ▸ hs
      rw [process_slot_inactive hs2] at h1
      refine ⟨h1, fun x hx => ?_⟩
      rcases List.mem_cons.mp hx with rfl | hx2
      · exact hs2
      · exact h2 x hx2

theorem fold_all_inactive (snap : List SockInfo)
    (h : ∀ s ∈ snap, activeSlot s = false) :
    ∀ st : LoopSt, snap.foldl process_slot st = st := by
  induction snap with
  | nil => exact fun _ => rfl
  | cons s t ih =>
    intro st
    rw [List.foldl_cons, process_slot_inactive (h s (List.mem_cons_self s t)),
        ih (fun x hx => h x (List.mem_cons_of_mem s hx)) st]

theorem notify_idle (v : World) (snap : List SockInfo)
    (hin : ∀ s ∈ snap, activeSlot s = false) (hfds : v.driver.fds = [])
    (hwk : v.driver.working = false) :
    grpc_ares_notify_on_event_locked { v with driver.working := true } snap
      = (v, []) := by
  obtain ⟨⟨fds0, wk0⟩, det0, nid0⟩ := v
  have hf : fds0 = [] := hfds
  have hw : wk0 = false := hwk
  subst hf
  subst hw
  show (⟨⟨(snap.foldl process_slot ⟨[], [], nid0, []⟩).newList,
          if (snap.foldl process_slot ⟨[], [], nid0, []⟩).newList = [] then false
          else true⟩,
         det0 ++ (shutdown_leftovers
           (snap.foldl process_slot ⟨[], [], nid0, []⟩).old).1,
         (snap.foldl process_slot ⟨[], [], nid0, []⟩).nextId⟩,
        (snap.foldl process_slot ⟨[], [], nid0, []⟩).evs
          ++ (shutdown_leftovers
            (snap.foldl process_slot ⟨[], [], nid0, []⟩).old).2)
      = ((⟨⟨[], false⟩, det0, nid0⟩ : World), ([] : List Ev))
  rw [fold_all_inactive snap hin ⟨[], [], nid0, []⟩]
  simp [shutdown_leftovers]

theorem findNode_none_of {l : List FdNode} {nid : Nat}
    (h : ∀ y ∈ l, y.nodeId ≠ nid) : findNode l nid = none := by
  induction l with
  | nil => rfl
  | cons a t ih =>
    unfold findNode
    rw [if_neg (h a (List.mem_cons_self a t)),
        ih (fun y hy => h y (List.mem_cons_of_mem a hy))]

theorem findNode_append_left_none {a b : List FdNode} {nid : Nat}
    (h : ∀ y ∈ a, y.nodeId ≠ nid) :
    findNode (a ++ b) nid = findNode b nid := by
  induction a with
  | nil => rfl
  | cons x t ih =>
    rw [List.cons_append]
    show (if x.nodeId = nid then some x else findNode (t ++ b) nid) = findNode b nid
    rw [if_neg (h x (List.mem_cons_self x t))]
    exact ih (fun y hy => h y (List.mem_cons_of_mem x hy))

theorem distinctIds_fds {w : World} (h : distinctIds w) :
    (w.driver.fds.map FdNode.nodeId).Nodup := by
  unfold distinctIds allNodes at h
  rw [List.map_append] at h
  exact h.of_append_left

theorem distinctIds_detached {w : World} (h : distinctIds w) :
    (w.detached.map FdNode.nodeId).Nodup := by
  unfold distinctIds allNodes at h
  rw [List.map_append] at h
  exact h.of_append_right

theorem totalRefs_cons (n : FdNode) (l : List FdNode) :
    totalRefs (n :: l) = n.refs + totalRefs l := by
  simp [totalRefs]

theorem totalRefs_append (a b : List FdNode) :
    totalRefs (a ++ b) = totalRefs a + totalRefs b := by
  simp [totalRefs]

theorem located_split {w : World} {nid : Nat} {fdn : FdNode}
    (hWF : distinctIds w) (hfind : findNode (allNodes w) nid = some fdn) :
    fdn.nodeId = nid ∧
    ∃ l1 l2, (∀ y ∈ l1, y.nodeId ≠ nid) ∧ (∀ y ∈ l2, y.nodeId ≠ nid) ∧
      ((w.driver.fds = l1 ++ fdn :: l2 ∧ ∀ y ∈ w.detached, y.nodeId ≠ nid) ∨
       (w.detached = l1 ++ fdn :: l2 ∧ ∀ y ∈ w.driver.fds, y.nodeId ≠ nid)) := by
  obtain ⟨hid, hloc⟩ := findNode_located hWF hfind
  refine ⟨hid, ?_⟩
  rcases hloc with ⟨hmem, hnone⟩ | ⟨hmem, hnone⟩
  · obtain ⟨l1, l2, hsplit, hl1, hl2⟩ := mem_split_unique (distinctIds_fds hWF) hmem
    exact ⟨l1, l2, fun y hy => hid ▸ hl1 y hy, fun y hy => hid ▸ hl2 y hy,
           Or.inl ⟨hsplit, hnone⟩⟩
  · obtain ⟨l1, l2, hsplit, hl1, hl2⟩ := mem_split_unique (distinctIds_detached hWF) hmem
    exact ⟨l1, l2, fun y hy => hid ▸ hl1 y hy, fun y hy => hid ▸ hl2 y hy,
           Or.inr ⟨hsplit, hnone⟩⟩

theorem on_readable_pre_evs (w : World) (nid : Nat) (err : Bool) (fdn : FdNode)
    (hfind : findNode (allNodes w) nid = some fdn) :
    (on_readable_pre w nid err).2 =
      (if err then Ev.aresCancel else Ev.aresProcessFd fdn.fd ARES_SOCKET_BAD) ::
      (if fdn.refs = 1 then
        [Ev.pollsetDelFd false fdn.nodeId fdn.fd, Ev.fdShutdown fdn.nodeId fdn.fd,
         Ev.fdOrphan fdn.nodeId fdn.fd]
       else []) := by
  have hunf : (on_readable_pre w nid err).2 =
      (if err then Ev.aresCancel else Ev.aresProcessFd fdn.fd ARES_SOCKET_BAD) ::
      (fd_node_unref false { fdn with readable_registered := false }).2 := by
    unfold on_readable_pre
    rw [hfind]
  rw [hunf]
  by_cases hr : fdn.refs = 1
  · rw [fd_node_unref_release false
        { fdn with readable_registered := false } hr, if_pos hr]
  · rw [fd_node_unref_keep false
        { fdn with readable_registered := false } hr, if_neg hr]

theorem on_writable_pre_evs (w : World) (nid : Nat) (err : Bool) (fdn : FdNode)
    (hfind : findNode (allNodes w) nid = some fdn) :
    (on_writable_pre w nid err).2 =
      (if err then Ev.aresCancel else Ev.aresProcessFd ARES_SOCKET_BAD fdn.fd) ::
      (if fdn.refs = 1 then
        [Ev.pollsetDelFd false fdn.nodeId fdn.fd, Ev.fdShutdown fdn.nodeId fdn.fd,
         Ev.fdOrphan fdn.nodeId fdn.fd]
       else []) := by
  have hunf : (on_writable_pre w nid err).2 =
      (if err then Ev.aresCancel else Ev.aresProcessFd ARES_SOCKET_BAD fdn.fd) ::
      (fd_node_unref false { fdn with writable_registered := false }).2 := by
    unfold on_writable_pre
    rw [hfind]
  rw [hunf]
  by_cases hr : fdn.refs = 1
  · rw [fd_node_unref_release false
        { fdn with writable_registered := false } hr, if_pos hr]
  · rw [fd_node_unref_keep false
        { fdn with writable_registered := false } hr, if_neg hr]

theorem allNodes_update_some (w : World) (nid : Nat) (m : FdNode) :
    allNodes (updateWorldNode w nid (some m))
      = replaceNode w.driver.fds nid m ++ replaceNode w.detached nid m := rfl

theorem allNodes_update_none (w : World) (nid : Nat) :
    allNodes (updateWorldNode w nid none)
      = removeNode w.driver.fds nid ++ removeNode w.detached nid := rfl

theorem findNode_middle {l1 l2 : List FdNode} {x : FdNode} {nid : Nat}
    (h1 : ∀ y ∈ l1, y.nodeId ≠ nid) (hx : x.nodeId = nid) (l3 : List FdNode) :
    findNode ((l1 ++ x :: l2) ++ l3) nid = some x := by
  rw [List.append_assoc, List.cons_append]
  exact findNode_split h1 hx

theorem on_readable_pre_totalRefs {w : World} {nid : Nat} {err : Bool} {fdn : FdNode}
    (hInv : WInv w) (hWF : distinctIds w)
    (hfind : findNode (allNodes w) nid = some fdn) :
    totalRefs (allNodes w) = totalRefs (allNodes (on_readable_pre w nid err).1) + 1 := by
  obtain ⟨hid, l1, l2, hl1, hl2, hside⟩ := located_split hWF hfind
  have hunf : (on_readable_pre w nid err).1 =
      updateWorldNode w nid
        (fd_node_unref false { fdn with readable_registered := false }).1 := by
    unfold on_readable_pre
    rw [hfind]
  have hpos : 1 ≤ fdn.refs := by
    rcases hside with ⟨hsplit, -⟩ | ⟨hsplit, -⟩
    · have hmem : fdn ∈ w.driver.fds := by
        rw [hsplit]
        exact List.mem_append.mpr (Or.inr (List.mem_cons_self _ _))
      have h1 := hInv.1 fdn hmem
      unfold nodeRefsOk at h1
      omega
    · have hmem : fdn ∈ w.detached := by
        rw [hsplit]
        exact List.mem_append.mpr (Or.inr (List.mem_cons_self _ _))
      exact (hInv.2 fdn hmem).2
  rw [show allNodes w = w.driver.fds ++ w.detached from rfl]
  by_cases hr : fdn.refs = 1
  · rw [hunf, fd_node_unref_release false
        { fdn with readable_registered := false } hr, allNodes_update_none]
    rcases hside with ⟨hsplit, hnone⟩ | ⟨hsplit, hnone⟩
    · rw [hsplit, removeNode_split hl1 hid hl2, removeNode_of_none hnone]
      simp only [totalRefs_append, totalRefs_cons]
      omega
    · rw [hsplit, removeNode_split hl1 hid hl2, removeNode_of_none hnone]
      simp only [totalRefs_append, totalRefs_cons]
      omega
  · rw [hunf, fd_node_unref_keep false
        { fdn with readable_registered := false } hr, allNodes_update_some]
    rcases hside with ⟨hsplit, hnone⟩ | ⟨hsplit, hnone⟩
    · rw [hsplit, replaceNode_split hl1 hid hl2, replaceNode_of_none hnone]
      simp only [totalRefs_append, totalRefs_cons]
      omega
    · rw [hsplit, replaceNode_split hl1 hid hl2, replaceNode_of_none hnone]
      simp only [totalRefs_append, totalRefs_cons]
      omega

theorem on_writable_pre_totalRefs {w : World} {nid : Nat} {err : Bool} {fdn : FdNode}
    (hInv : WInv w) (hWF : distinctIds w)
    (hfind : findNode (allNodes w) nid = some fdn) :
    totalRefs (allNodes w) = totalRefs (allNodes (on_writable_pre w nid err).1) + 1 := by
  obtain ⟨hid, l1, l2, hl1, hl2, hside⟩ := located_split hWF hfind
  have hunf : (on_writable_pre w nid err).1 =
      updateWorldNode w nid
        (fd_node_unref false { fdn with writable_registered := false }).1 := by
    unfold on_writable_pre
    rw [hfind]
  have hpos : 1 ≤ fdn.refs := by
    rcases hside with ⟨hsplit, -⟩ | ⟨hsplit, -⟩
    · have hmem : fdn ∈ w.driver.fds := by
        rw [hsplit]
        exact List.mem_append.mpr (Or.inr (List.mem_cons_self _ _))
      have h1 := hInv.1 fdn hmem
      unfold nodeRefsOk at h1
      omega
    · have hmem : fdn ∈ w.detached := by
        rw [hsplit]
        exact List.mem_append.mpr (Or.inr (List.mem_cons_self _ _))
      exact (hInv.2 fdn hmem).2
  rw [show allNodes w = w.driver.fds ++ w.detached from rfl]
  by_cases hr : fdn.refs = 1
  · rw [hunf, fd_node_unref_release false
        { fdn with writable_registered := false } hr, allNodes_update_none]
    rcases hside with ⟨hsplit, hnone⟩ | ⟨hsplit, hnone⟩
    · rw [hsplit, removeNode_split hl1 hid hl2, removeNode_of_none hnone]
      simp only [totalRefs_append, totalRefs_cons]
      omega
    · rw [hsplit, removeNode_split hl1 hid hl2, removeNode_of_none hnone]
      simp only [totalRefs_append, totalRefs_cons]
      omega
  · rw [hunf, fd_node_unref_keep false
        { fdn with writable_registered := false } hr, allNodes_update_some]
    rcases hside with ⟨hsplit, hnone⟩ | ⟨hsplit, hnone⟩
    · rw [hsplit, replaceNode_split hl1 hid hl2, replaceNode_of_none hnone]
      simp only [totalRefs_append, totalRefs_cons]
      omega
    · rw [hsplit, replaceNode_split hl1 hid hl2, replaceNode_of_none hnone]
      simp only [totalRefs_append, totalRefs_cons]
      omega

theorem on_readable_pre_findNode {w : World} {nid : Nat} {err : Bool} {fdn : FdNode}
    (hWF : distinctIds w) (hfind : findNode (allNodes w) nid = some fdn) :
    findNode (allNodes (on_readable_pre w nid err).1) nid
      = (if fdn.refs = 1 then none
         else some { fdn with readable_registered := false, refs := fdn.refs - 1 }) := by
  obtain ⟨hid, l1, l2, hl1, hl2, hside⟩ := located_split hWF hfind
  have hunf : (on_readable_pre w nid err).1 =
      updateWorldNode w nid
        (fd_node_unref false { fdn with readable_registered := false }).1 := by
    unfold on_readable_pre
    rw [hfind]
  by_cases hr : fdn.refs = 1
  · rw [if_pos hr, hunf, fd_node_unref_release false
        { fdn with readable_registered := false } hr, allNodes_update_none]
    rcases hside with ⟨hsplit, hnone⟩ | ⟨hsplit, hnone⟩
    · rw [hsplit, removeNode_split hl1 hid hl2, removeNode_of_none hnone]
      refine findNode_none_of (fun y hy => ?_)
      rcases List.mem_append.mp hy with h1 | h1
      · rcases List.mem_append.mp h1 with h2 | h2
        · exact hl1 y h2
        · exact hl2 y h2
      · exact hnone y h1
    · rw [hsplit, removeNode_split hl1 hid hl2, removeNode_of_none hnone]
      refine findNode_none_of (fun y hy => ?_)
      rcases List.mem_append.mp hy with h1 | h1
      · exact hnone y h1
      · rcases List.mem_append.mp h1 with h2 | h2
        · exact hl1 y h2
        · exact hl2 y h2
  · rw [if_neg hr, hunf, fd_node_unref_keep false
        { fdn with readable_registered := false } hr, allNodes_update_some]
    rcases hside with ⟨hsplit, hnone⟩ | ⟨hsplit, hnone⟩
    · rw [hsplit, replaceNode_split hl1 hid hl2, replaceNode_of_none hnone]
      refine findNode_middle hl1 ?_ w.detached
      exact hid
    · rw [hsplit, replaceNode_split hl1 hid hl2, replaceNode_of_none hnone]
      rw [findNode_append_left_none hnone]
      refine findNode_split hl1 ?_
      exact hid

theorem on_writable_pre_findNode {w : World} {nid : Nat} {err : Bool} {fdn : FdNode}
    (hWF : distinctIds w) (hfind : findNode (allNodes w) nid = some fdn) :
    findNode (allNodes (on_writable_pre w nid err).1) nid
      = (if fdn.refs = 1 then none
         else some { fdn with writable_registered := false, refs := fdn.refs - 1 }) := by
  obtain ⟨hid, l1, l2, hl1, hl2, hside⟩ := located_split hWF hfind
  have hunf : (on_writable_pre w nid err).1 =
      updateWorldNode w nid
        (fd_node_unref false { fdn with writable_registered := false }).1 := by
    unfold on_writable_pre
    rw [hfind]
  by_cases hr : fdn.refs = 1
  · rw [if_pos hr, hunf, fd_node_unref_release false
        { fdn with writable_registered := false } hr, allNodes_update_none]
    rcases hside with ⟨hsplit, hnone⟩ | ⟨hsplit, hnone⟩
    · rw [hsplit, removeNode_split hl1 hid hl2, removeNode_of_none hnone]
      refine findNode_none_of (fun y hy => ?_)
      rcases List.mem_append.mp hy with h1 | h1
      · rcases List.mem_append.mp h1 with h2 | h2
        · exact hl1 y h2
        · exact hl2 y h2
      · exact hnone y h1
    · rw [hsplit, removeNode_split hl1 hid hl2, removeNode_of_none hnone]
      refine findNode_none_of (fun y hy => ?_)
      rcases List.mem_append.mp hy with h1 | h1
      · exact hnone y h1
      · rcases List.mem_append.mp h1 with h2 | h2
        · exact hl1 y h2
        · exact hl2 y h2
  · rw [if_neg hr, hunf, fd_node_unref_keep false
        { fdn with writable_registered := false } hr, allNodes_update_some]
    rcases hside with ⟨hsplit, hnone⟩ | ⟨hsplit, hnone⟩
    · rw [hsplit, replaceNode_split hl1 hid hl2, replaceNode_of_none hnone]
      refine findNode_middle hl1 ?_ w.detached
      exact hid
    · rw [hsplit, replaceNode_split hl1 hid hl2, replaceNode_of_none hnone]
      rw [findNode_append_left_none hnone]
      refine findNode_split hl1 ?_
      exact hid

theorem filter_none {α : Type} (p : α → Bool) (l : List α)
    (h : ∀ a ∈ l, p a = false) : l.filter p = [] := by
  induction l with
  | nil => rfl
  | cons a t ih =>
    rw [List.filter_cons,
        if_neg (by rw [h a (List.mem_cons_self a t)]; exact Bool.false_ne_true)]
    exact ih (fun x hx => h x (List.mem_cons_of_mem a hx))

theorem mrr_fd (s : SockInfo) (n : FdNode) :
    ((maybe_register_read s n).1).fd = n.fd := by
  rw [maybe_register_read_node]

theorem mrw_fd (s : SockInfo) (n : FdNode) :
    ((maybe_register_write s n).1).fd = n.fd := by
  rw [maybe_register_write_node]

theorem run_slots_main (orig : List FdNode) :
    ∀ (snap : List SockInfo) (st : LoopSt),
      (activeFds snap).Nodup →
      (∀ d ∈ activeFds snap, findByFd st.old d = findByFd orig d) →
      (∀ x ∈ st.old, nodeRefsOk x) →
      ((snap.foldl process_slot st).newList.map FdNode.fd
          = (activeFds snap).reverse ++ st.newList.map FdNode.fd) ∧
      ∀ x ∈ (snap.foldl process_slot st).newList,
        x ∈ st.newList ∨ ∃ s ∈ snap, activeSlot s = true ∧ slotNodeSpec orig s x := by
  intro snap
  induction snap with
  | nil =>
    intro st _ _ _
    exact ⟨by simp [activeFds], fun x hx => Or.inl hx⟩
  | cons s t ih =>
    intro st hnd hagree hrefs
    rw [List.foldl_cons]
    by_cases hs : activeSlot s = true
    · rw [activeFds_cons_active hs] at hnd hagree
      have hnd2 : (activeFds t).Nodup := (List.nodup_cons.mp hnd).2
      have hsfd : s.fd ∉ activeFds t := (List.nodup_cons.mp hnd).1
      cases hp : pop_fd_node st.old s.fd with
      | some p =>
        obtain ⟨mm, rest⟩ := p
        have hstep := process_slot_active_pop hs hp
        have hagree2 : ∀ d ∈ activeFds t,
            findByFd (process_slot st s).old d = findByFd orig d := by
          intro d hd
          rw [hstep]
          show findByFd rest d = findByFd orig d
          rw [pop_fd_node_find_other hp (fun hc => hsfd (hc ▸ hd))]
          exact hagree d (List.mem_cons_of_mem _ hd)
        have hrefs2 : ∀ x ∈ (process_slot st s).old, nodeRefsOk x := by
          intro x hx
          rw [hstep] at hx
          exact hrefs x ((pop_fd_node_perm hp).symm.subset (List.mem_cons_of_mem mm hx))
        obtain ⟨ihA, ihB⟩ := ih (process_slot st s) hnd2 hagree2 hrefs2
        have hmOk : nodeRefsOk mm :=
          hrefs mm ((pop_fd_node_perm hp).symm.subset (List.mem_cons_self _ _))
        have hmfd : mm.fd = s.fd := pop_fd_node_fd hp
        have hfindm : findByFd orig s.fd = some mm := by
          rw [← hagree s.fd (List.mem_cons_self _ _)]
          exact pop_fd_node_find hp
        have hflags : oldFlags orig s.fd
            = (mm.readable_registered, mm.writable_registered) := by
          unfold oldFlags
          rw [hfindm]
        have hspec : slotNodeSpec orig s
            ((maybe_register_write s (maybe_register_read s mm).1).1) := by
          refine ⟨?_, ?_, ?_,
                  nodeRefsOk_register_write s (nodeRefsOk_register_read s hmOk)⟩
          · rw [mrw_fd, mrr_fd]
            exact hmfd
          · rw [hflags, maybe_register_write_node, maybe_register_read_node]
            try simp
          · rw [hflags, maybe_register_write_node, maybe_register_read_node]
            try simp
        constructor
        · rw [ihA, hstep, activeFds_cons_active hs]
          simp only [List.map_cons, mrw_fd, mrr_fd, hmfd, List.reverse_cons]
          simp [List.append_assoc]
        · intro x hx
          rcases ihB x hx with h1 | h1
          · rw [hstep] at h1
            rcases List.mem_cons.mp h1 with rfl | h2
            · exact Or.inr ⟨s, List.mem_cons_self _ _, hs, hspec⟩
            · exact Or.inl h2
          · obtain ⟨s2, hs2, hact2, hspec2⟩ := h1
            exact Or.inr ⟨s2, List.mem_cons_of_mem _ hs2, hact2, hspec2⟩
      | none =>
        have hstep := process_slot_active_new hs hp
        have hagree2 : ∀ d ∈ activeFds t,
            findByFd (process_slot st s).old d = findByFd orig d := by
          intro d hd
          rw [hstep]
          exact hagree d (List.mem_cons_of_mem _ hd)
        have hrefs2 : ∀ x ∈ (process_slot st s).old, nodeRefsOk x := by
          intro x hx
          rw [hstep] at hx
          exact hrefs x hx
        obtain ⟨ihA, ihB⟩ := ih (process_slot st s) hnd2 hagree2 hrefs2
        have hfindnone : findByFd orig s.fd = none := by
          rw [← hagree s.fd (List.mem_cons_self _ _)]
          exact findByFd_none_iff.mpr (pop_fd_node_none_mem hp)
        have hflags : oldFlags orig s.fd = (false, false) := by
          unfold oldFlags
          rw [hfindnone]
        have hspec : slotNodeSpec orig s
            ((maybe_register_write s
              (maybe_register_read s (new_fd_node st.nextId s.fd)).1).1) := by
          refine ⟨?_, ?_, ?_,
                  nodeRefsOk_register_write s
                    (nodeRefsOk_register_read s (nodeRefsOk_new st.nextId s.fd))⟩
          · rw [mrw_fd, mrr_fd]
            rfl
          · rw [hflags, maybe_register_write_node, maybe_register_read_node]
            try simp [new_fd_node]
          · rw [hflags, maybe_register_write_node, maybe_register_read_node]
            try simp [new_fd_node]
        constructor
        · rw [ihA, hstep, activeFds_cons_active hs]
          simp only [List.map_cons, mrw_fd, mrr_fd, new_fd_node, List.reverse_cons]
          simp [List.append_assoc]
        · intro x hx
          rcases ihB x hx with h1 | h1
          · rw [hstep] at h1
            rcases List.mem_cons.mp h1 with rfl | h2
            · exact Or.inr ⟨s, List.mem_cons_self _ _, hs, hspec⟩
            · exact Or.inl h2
          · obtain ⟨s2, hs2, hact2, hspec2⟩ := h1
            exact Or.inr ⟨s2, List.mem_cons_of_mem _ hs2, hact2, hspec2⟩
    · have hs2 : activeSlot s = false := Bool.not_eq_true _ ▸ hs
      rw [process_slot_inactive hs2, activeFds_cons_inactive hs2]
      rw [activeFds_cons_inactive hs2] at hnd hagree
      obtain ⟨ihA, ihB⟩ := ih st hnd hagree hrefs
      refine ⟨ihA, fun x hx => ?_⟩
      rcases ihB x hx with h1 | h1
      · exact Or.inl h1
      · obtain ⟨s2, hs2m, hact2, hspec2⟩ := h1
        exact Or.inr ⟨s2, List.mem_cons_of_mem _ hs2m, hact2, hspec2⟩

/-- C1: the shutdown loop of `grpc_ares_ev_driver_destroy` advances its
cursor twice per iteration.  With two tracked descriptors (each holding a
pending read registration) it shuts down only the first node, so only one
error-carrying firing is forced instead of two; with a single tracked
descriptor the update clause dereferences a null cursor.  This contradicts
the code's own comment ("Shutdown all the working fds, invoke their
registered on_readable_cb and on_writable_cb"). -/
theorem destroy_skips_every_other_node :
    grpc_ares_ev_driver_destroy
        ⟨⟨[⟨0, 5, true, false, 2⟩, ⟨1, 6, true, false, 2⟩], true⟩, [], 2⟩
      = some (⟨⟨[⟨0, 5, true, false, 2⟩, ⟨1, 6, true, false, 2⟩], true⟩, [], 2⟩,
              [Ev.fdShutdown 0 5]) ∧
    grpc_ares_ev_driver_destroy ⟨⟨[⟨0, 5, true, false, 2⟩], true⟩, [], 1⟩
      = none := by
  decide

/-- C2: when `ares_init` fails (status 1 ≠ `ARES_SUCCESS`), `create` returns
the error and constructs no driver, but the process-wide engine-library
count incremented by `grpc_ares_init` stays at 1 — the rollback the spec
requires does not happen. -/
theorem create_failure_leaks_init_count :
    grpc_ares_ev_driver_create 0 true 1 = (Except.error (), 1) := by
  rfl

/-- C3 counterexample: reconcile a fresh working driver with snapshot
`[{fd 5: readable}]`, then with `[{fd 5: writable, not readable}]`.  After
the second pass the tracked node for descriptor 5 still has
`readable_registered = true` although the pass reported readable = false, so
the registration flags do not match the reported bits. -/
theorem reconcile_flags_mismatch_cex :
    ¬ (∀ n ∈ (grpc_ares_notify_on_event_locked
          (grpc_ares_notify_on_event_locked ⟨⟨[], true⟩, [], 0⟩
            [⟨5, true, false⟩]).1
          [⟨5, false, true⟩]).1.driver.fds,
        n.readable_registered = false) := by
  decide

/-- C8 counterexample: start with `{5: read, 6: read}`; fd 6 fires
successfully twice (snapshots `{6: read}` then `{}`), after which the driver
is idle (`working = false`) while node 5 sits detached with its read
registration pending.  That registration then fires with an error and the
ensuing reconciliation pass reports `{7: read}`: the pass ends with a
non-empty fd collection but leaves `working = false`, violating the claimed
invariant. -/
theorem working_flag_cex :
    ¬ (idleFiringStep.1.driver.working = true
        ↔ idleFiringStep.1.driver.fds ≠ []) := by
  decide

/-- C9 counterexample: same preamble as for C8; when the detached node 5's
pending read registration fires with an error, the handler drops the node's
last reference before re-acquiring the driver mutex, so the resulting
`grpc_pollset_set_del_fd` runs without the driver lock — refuting the claim
that every pollset-set mutation happens under it. -/
theorem pollset_unlocked_mutation_cex :
    ¬ (∀ e ∈ idleFiringStep.2, isUnlockedPollsetMut e = false) := by
  decide

/-- C3 (amended): after a reconciliation pass over a snapshot whose active
slots carry distinct descriptors, the driver's tracked descriptors are
exactly the snapshot's active descriptors (the list is built by prepending,
hence reversed), and every tracked node wraps its slot's descriptor with
each registration flag equal to the reported bit JOINED WITH the node's
still-pending pre-pass registration for that direction, and a ref count of
exactly `1 + readable_registered + writable_registered`.  (The original
claim's "flags match the reported bits" fails when a direction registered in
an earlier pass has not fired and is not re-reported; see the
counterexample.) -/
theorem reconciliation_tracks_interest (w : World) (snap : List SockInfo)
    (hInv : WInv w) (hnd : (activeFds snap).Nodup) :
    ((grpc_ares_notify_on_event_locked w snap).1.driver.fds.map FdNode.fd
       = (activeFds snap).reverse) ∧
    ∀ x ∈ (grpc_ares_notify_on_event_locked w snap).1.driver.fds,
      ∃ s ∈ snap, activeSlot s = true ∧ slotNodeSpec w.driver.fds s x := by
  obtain ⟨hA, hB⟩ := run_slots_main w.driver.fds snap ⟨w.driver.fds, [], w.nextId, []⟩
    hnd (fun d _ => rfl) (fun x hx => hInv.1 x hx)
  constructor
  · have h2 : (grpc_ares_notify_on_event_locked w snap).1.driver.fds
        = (snap.foldl process_slot ⟨w.driver.fds, [], w.nextId, []⟩).newList := rfl
    rw [h2, hA]
    simp
  · intro x hx
    rcases hB x hx with h1 | h1
    · simp at h1
    · exact h1

/-- C3 witness: one pass of a fresh working driver over `[{fd 5: readable}]`
tracks exactly descriptor 5. -/
theorem reconciliation_tracks_interest_witness :
    WInv ⟨⟨[], true⟩, [], 0⟩ ∧
    (activeFds [⟨5, true, false⟩]).Nodup ∧
    ((grpc_ares_notify_on_event_locked ⟨⟨[], true⟩, [], 0⟩
        [⟨5, true, false⟩]).1.driver.fds.map FdNode.fd
      = (activeFds [⟨5, true, false⟩]).reverse) :=
  ⟨by decide, by decide,
   (reconciliation_tracks_interest ⟨⟨[], true⟩, [], 0⟩ [⟨5, true, false⟩]
      (by decide) (by decide)).1⟩

/-- C4: the refcount invariant — every node linked in the driver's fd list
holds `1 + readable_registered + writable_registered` references, every
unlinked-but-alive node holds one reference per still-pending registration
(and at least one) — is established by `create` and preserved by `start`,
by a reconciliation pass, by both completion handlers (firing on a node
whose corresponding flag is registered), and by `destroy`.  Moreover a
handler drops the last reference (count 1 → 0) only on a node already
unlinked from the list whose other direction has no registration pending —
so the count reaches zero only after unlinking, with both flags false,
exactly as `fd_node_unref`'s assertions demand. -/
theorem refcount_invariant_preserved (w : World) (snap : List SockInfo)
    (nid : Nat) (err : Bool) (fdn : FdNode) (r : World × List Ev)
    (hInv : WInv w) (hWF : distinctIds w) :
    WInv ⟨⟨[], false⟩, [], 0⟩ ∧
    WInv (grpc_ares_ev_driver_start w snap).1 ∧
    WInv (grpc_ares_notify_on_event_locked w snap).1 ∧
    (findNode (allNodes w) nid = some fdn →
      (fdn.readable_registered = true →
        WInv (on_readable_cb w nid err snap).1 ∧
        (fdn.refs = 1 → fdn ∈ w.detached ∧ fdn.writable_registered = false)) ∧
      (fdn.writable_registered = true →
        WInv (on_writable_cb w nid err snap).1 ∧
        (fdn.refs = 1 → fdn ∈ w.detached ∧ fdn.readable_registered = false))) ∧
    (grpc_ares_ev_driver_destroy w = some r → WInv r.1) := by
  refine ⟨by decide, ?_, WInv_notify snap hInv, ?_, ?_⟩
  · by_cases hw : w.driver.working = true
    · rw [start_of_working w snap hw]
      exact hInv
    · rw [start_of_not_working w snap (Bool.not_eq_true _ ▸ hw)]
      exact WInv_notify snap hInv
  · intro hfind
    constructor
    · intro hreg
      exact ⟨on_readable_cb_WInv snap hInv hWF hfind hreg,
             (@on_readable_pre_WInv w nid err fdn hInv hWF hfind hreg).2⟩
    · intro hreg
      exact ⟨on_writable_cb_WInv snap hInv hWF hfind hreg,
             (@on_writable_pre_WInv w nid err fdn hInv hWF hfind hreg).2⟩
  · intro hd
    rw [destroy_state hd]
    exact hInv

/-- C4 witness: the invariant theorem applied to a concrete state — fd list
holding node 0 (fd 5, read registered, 2 refs), node 1 (fd 6, read pending,
1 ref) detached — for an error firing of node 1's read registration. -/
theorem refcount_invariant_preserved_witness :
    WInv (on_readable_cb ⟨⟨[⟨0, 5, true, false, 2⟩], true⟩, [⟨1, 6, true, false, 1⟩], 2⟩
           1 true []).1 :=
  (((refcount_invariant_preserved
      ⟨⟨[⟨0, 5, true, false, 2⟩], true⟩, [⟨1, 6, true, false, 1⟩], 2⟩
      [] 1 true ⟨1, 6, true, false, 1⟩ (⟨⟨[], false⟩, [], 0⟩, [])
      (by decide) (by decide)).2.2.2.1 (by decide)).1 (by decide)).1

/-- C7: `start()` is idempotent.  When the driver is not working, `start`
marks it working and runs exactly one reconciliation pass under the driver
lock; running `start` a second time with the same engine interest set leaves
the state bit-for-bit unchanged and performs no call at all — in particular
no readiness registration is repeated, since a registration is taken only
when the corresponding flag is still false. -/
theorem start_idempotent (w : World) (snap : List SockInfo)
    (h : w.driver.working = false) :
    grpc_ares_ev_driver_start w snap
      = grpc_ares_notify_on_event_locked { w with driver.working := true } snap ∧
    grpc_ares_ev_driver_start (grpc_ares_ev_driver_start w snap).1 snap
      = ((grpc_ares_ev_driver_start w snap).1, []) := by
  have h1 := start_of_not_working w snap h
  refine ⟨h1, ?_⟩
  obtain ⟨⟨fds0, wk0⟩, det0, nid0⟩ := w
  have hw : wk0 = false := h
  subst hw
  by_cases hn : (snap.foldl process_slot ⟨fds0, [], nid0, []⟩).newList = []
  · have hin := (fold_newList_nil snap _ hn).2
    have hW1f : (grpc_ares_ev_driver_start ⟨⟨fds0, false⟩, det0, nid0⟩ snap).1.driver.fds
        = [] := by
      rw [h1]
      exact hn
    have hW1w : (grpc_ares_ev_driver_start ⟨⟨fds0, false⟩, det0, nid0⟩ snap).1.driver.working
        = false := by
      rw [h1]
      show (if (snap.foldl process_slot ⟨fds0, [], nid0, []⟩).newList = [] then false
            else true) = false
      rw [if_pos hn]
    rw [start_of_not_working _ snap hW1w]
    exact notify_idle _ snap hin hW1f hW1w
  · have hW1w : (grpc_ares_ev_driver_start ⟨⟨fds0, false⟩, det0, nid0⟩ snap).1.driver.working
        = true := by
      rw [h1]
      show (if (snap.foldl process_slot ⟨fds0, [], nid0, []⟩).newList = [] then false
            else true) = true
      rw [if_neg hn]
    exact start_of_working _ snap hW1w

/-- C7 witness: a fresh driver started twice on the interest set
`[{fd 5: readable}]` — the second `start` returns the state unchanged with
an empty call trace. -/
theorem start_idempotent_witness :
    (⟨⟨[], false⟩, [], 0⟩ : World).driver.working = false ∧
    grpc_ares_ev_driver_start
        (grpc_ares_ev_driver_start ⟨⟨[], false⟩, [], 0⟩ [⟨5, true, false⟩]).1
        [⟨5, true, false⟩]
      = ((grpc_ares_ev_driver_start ⟨⟨[], false⟩, [], 0⟩ [⟨5, true, false⟩]).1, []) :=
  ⟨rfl, (start_idempotent ⟨⟨[], false⟩, [], 0⟩ [⟨5, true, false⟩] rfl).2⟩

/-- C8 (amended): `working` transitions from true to false only at the end
of a reconciliation pass whose new fd collection is empty; a reconciliation
pass never raises `working` (only `start` does); when a pass is entered with
`working = true` — as happens for every pass reached through `start` and
through firings on a working driver — it leaves `working = true` iff the new
collection is non-empty; and `start` preserves the `working ↔ non-empty`
invariant.  (Unlike the original claim, a pass entered with
`working = false` — a detached node firing after the driver went idle —
leaves `working` false even when the engine reports new descriptors; see the
counterexample.) -/
theorem working_flag_amended (w : World) (snap : List SockInfo) :
    ((grpc_ares_notify_on_event_locked w snap).1.driver.working = false →
       w.driver.working = true →
       (grpc_ares_notify_on_event_locked w snap).1.driver.fds = []) ∧
    ((grpc_ares_notify_on_event_locked w snap).1.driver.working = true →
       w.driver.working = true) ∧
    (w.driver.working = true →
       ((grpc_ares_notify_on_event_locked w snap).1.driver.working = true ↔
        (grpc_ares_notify_on_event_locked w snap).1.driver.fds ≠ [])) ∧
    ((w.driver.working = true ↔ w.driver.fds ≠ []) →
       ((grpc_ares_ev_driver_start w snap).1.driver.working = true ↔
        (grpc_ares_ev_driver_start w snap).1.driver.fds ≠ [])) := by
  obtain ⟨⟨fds0, wk0⟩, det0, nid0⟩ := w
  have e1 : (grpc_ares_notify_on_event_locked ⟨⟨fds0, wk0⟩, det0, nid0⟩ snap).1.driver.working
      = (if (snap.foldl process_slot ⟨fds0, [], nid0, []⟩).newList = [] then false
         else wk0) := rfl
  have e2 : (grpc_ares_notify_on_event_locked ⟨⟨fds0, wk0⟩, det0, nid0⟩ snap).1.driver.fds
      = (snap.foldl process_slot ⟨fds0, [], nid0, []⟩).newList := rfl
  have hstart : ((wk0 = true) ↔ fds0 ≠ []) →
      ((grpc_ares_ev_driver_start ⟨⟨fds0, wk0⟩, det0, nid0⟩ snap).1.driver.working = true ↔
       (grpc_ares_ev_driver_start ⟨⟨fds0, wk0⟩, det0, nid0⟩ snap).1.driver.fds ≠ []) := by
    intro hiff
    cases wk0
    · rw [start_of_not_working _ snap rfl]
      have f1 : (grpc_ares_notify_on_event_locked ⟨⟨fds0, true⟩, det0, nid0⟩ snap).1.driver.working
          = (if (snap.foldl process_slot ⟨fds0, [], nid0, []⟩).newList = [] then false
             else true) := rfl
      have f2 : (grpc_ares_notify_on_event_locked ⟨⟨fds0, true⟩, det0, nid0⟩ snap).1.driver.fds
          = (snap.foldl process_slot ⟨fds0, [], nid0, []⟩).newList := rfl
      rw [show ({(⟨⟨fds0, false⟩, det0, nid0⟩ : World) with driver.working := true} : World)
            = ⟨⟨fds0, true⟩, det0, nid0⟩ from rfl, f1, f2]
      by_cases hn2 : (snap.foldl process_slot ⟨fds0, [], nid0, []⟩).newList = []
      · rw [if_pos hn2, hn2]
        simp
      · rw [if_neg hn2]
        simp [hn2]
    · rw [start_of_working _ snap rfl]
      exact hiff
  by_cases hn : (snap.foldl process_slot ⟨fds0, [], nid0, []⟩).newList = []
  · refine ⟨fun _ _ => ?_, fun hc => ?_, fun hwk => ?_, hstart⟩
    · rw [e2, hn]
    · rw [e1, if_pos hn] at hc
      exact absurd hc Bool.false_ne_true
    · rw [e1, e2, if_pos hn, hn]
      simp
  · refine ⟨fun hc hw2 => ?_, fun hc => ?_, fun hwk => ?_, hstart⟩
    · rw [e1, if_neg hn] at hc
      rw [hc] at hw2
      exact absurd hw2 Bool.false_ne_true
    · rw [e1, if_neg hn] at hc
      exact hc
    · rw [e1, e2, if_neg hn, show wk0 = true from hwk]
      simp [hn]

/-- C6: each completion handler, on firing for a live node: clears its
direction's registered flag (visible in the node looked up after the
pre-reconciliation half: the flag is false, or the node is gone when this was
its last reference); makes exactly one engine call — `ares_process_fd` with
the node's descriptor in the fired direction and `ARES_SOCKET_BAD` in the
other when the completion carries no error, `ares_cancel` when it carries an
error; releases exactly one reference (the total live reference count drops
by one); and then re-runs reconciliation under the driver lock (the handler
is literally the pre-half followed by `grpc_ares_notify_on_event_locked`,
which contributes no engine call to the trace). -/
theorem completion_handler_behavior (w : World) (nid : Nat) (err : Bool)
    (snap : List SockInfo) (fdn : FdNode)
    (hInv : WInv w) (hWF : distinctIds w)
    (hfind : findNode (allNodes w) nid = some fdn) :
    ((on_readable_cb w nid err snap).2.filter isEngineCall
       = [if err then Ev.aresCancel else Ev.aresProcessFd fdn.fd ARES_SOCKET_BAD]) ∧
    totalRefs (allNodes w)
      = totalRefs (allNodes (on_readable_pre w nid err).1) + 1 ∧
    findNode (allNodes (on_readable_pre w nid err).1) nid
      = (if fdn.refs = 1 then none
         else some { fdn with readable_registered := false, refs := fdn.refs - 1 }) ∧
    on_readable_cb w nid err snap
      = ((grpc_ares_notify_on_event_locked (on_readable_pre w nid err).1 snap).1,
         (on_readable_pre w nid err).2
           ++ (grpc_ares_notify_on_event_locked (on_readable_pre w nid err).1 snap).2) ∧
    ((on_writable_cb w nid err snap).2.filter isEngineCall
       = [if err then Ev.aresCancel else Ev.aresProcessFd ARES_SOCKET_BAD fdn.fd]) ∧
    totalRefs (allNodes w)
      = totalRefs (allNodes (on_writable_pre w nid err).1) + 1 ∧
    findNode (allNodes (on_writable_pre w nid err).1) nid
      = (if fdn.refs = 1 then none
         else some { fdn with writable_registered := false, refs := fdn.refs - 1 }) ∧
    on_writable_cb w nid err snap
      = ((grpc_ares_notify_on_event_locked (on_writable_pre w nid err).1 snap).1,
         (on_writable_pre w nid err).2
           ++ (grpc_ares_notify_on_event_locked (on_writable_pre w nid err).1 snap).2) := by
  refine ⟨?_, on_readable_pre_totalRefs hInv hWF hfind,
          on_readable_pre_findNode hWF hfind, rfl, ?_,
          on_writable_pre_totalRefs hInv hWF hfind,
          on_writable_pre_findNode hWF hfind, rfl⟩
  · rw [show (on_readable_cb w nid err snap).2
        = (on_readable_pre w nid err).2
          ++ (grpc_ares_notify_on_event_locked (on_readable_pre w nid err).1 snap).2
        from rfl,
       List.filter_append, on_readable_pre_evs w nid err fdn hfind,
       filter_none isEngineCall _ (fun e he => notify_evs_no_engine he),
       List.append_nil]
    by_cases herr : err <;> by_cases hr : fdn.refs = 1 <;>
      simp [herr, hr, isEngineCall]
  · rw [show (on_writable_cb w nid err snap).2
        = (on_writable_pre w nid err).2
          ++ (grpc_ares_notify_on_event_locked (on_writable_pre w nid err).1 snap).2
        from rfl,
       List.filter_append, on_writable_pre_evs w nid err fdn hfind,
       filter_none isEngineCall _ (fun e he => notify_evs_no_engine he),
       List.append_nil]
    by_cases herr : err <;> by_cases hr : fdn.refs = 1 <;>
      simp [herr, hr, isEngineCall]

/-- C6 witness: the handler theorem applied to a driver tracking fd 5
(read and write registered, 3 refs) for an error-free read firing. -/
theorem completion_handler_behavior_witness :
    ((on_readable_cb ⟨⟨[⟨0, 5, true, true, 3⟩], true⟩, [], 1⟩ 0 false []).2.filter
        isEngineCall
      = [Ev.aresProcessFd 5 ARES_SOCKET_BAD]) :=
  (completion_handler_behavior ⟨⟨[⟨0, 5, true, true, 3⟩], true⟩, [], 1⟩ 0 false []
    ⟨0, 5, true, true, 3⟩ (by decide) (by decide) (by decide)).1

/-- C9 (amended): every pollset-set mutation issued by a reconciliation pass
or by `start` — including the additions at node creation and the removals of
nodes released during the pass — happens under the driver lock; but the
removal performed when a completion handler drops a node's last reference
happens in the handler's pre-lock half, without the driver lock (and that is
the only unlocked pollset-set mutation a handler can issue). -/
theorem pollset_lock_discipline (w : World) (snap : List SockInfo)
    (nid : Nat) (err : Bool) (fdn : FdNode) :
    (∀ e ∈ (grpc_ares_notify_on_event_locked w snap).2,
       isUnlockedPollsetMut e = false) ∧
    (∀ e ∈ (grpc_ares_ev_driver_start w snap).2, isUnlockedPollsetMut e = false) ∧
    (findNode (allNodes w) nid = some fdn → fdn.refs = 1 →
       Ev.pollsetDelFd false fdn.nodeId fdn.fd ∈ (on_readable_pre w nid err).2 ∧
       Ev.pollsetDelFd false fdn.nodeId fdn.fd ∈ (on_writable_pre w nid err).2) ∧
    (∀ e ∈ (on_readable_pre w nid err).2, isUnlockedPollsetMut e = true →
       ∃ m, findNode (allNodes w) nid = some m ∧ m.refs = 1 ∧
         e = Ev.pollsetDelFd false m.nodeId m.fd) ∧
    (∀ e ∈ (on_writable_pre w nid err).2, isUnlockedPollsetMut e = true →
       ∃ m, findNode (allNodes w) nid = some m ∧ m.refs = 1 ∧
         e = Ev.pollsetDelFd false m.nodeId m.fd) := by
  refine ⟨fun e he => notify_evs_locked he, ?_, ?_, ?_, ?_⟩
  · intro e he
    by_cases hw : w.driver.working = true
    · rw [start_of_working w snap hw] at he
      simp at he
    · rw [start_of_not_working w snap (Bool.not_eq_true _ ▸ hw)] at he
      exact notify_evs_locked he
  · intro hfind hr
    constructor
    · rw [on_readable_pre_evs w nid err fdn hfind, if_pos hr]
      simp
    · rw [on_writable_pre_evs w nid err fdn hfind, if_pos hr]
      simp
  · intro e he hu
    cases hfind2 : findNode (allNodes w) nid with
    | none =>
      have hnil : (on_readable_pre w nid err).2 = [] := by
        unfold on_readable_pre
        rw [hfind2]
      rw [hnil] at he
      simp at he
    | some m =>
      rw [on_readable_pre_evs w nid err m hfind2] at he
      rcases List.mem_cons.mp he with rfl | h2
      · exfalso
        by_cases herr : err <;> simp [herr, isUnlockedPollsetMut] at hu
      · by_cases hr : m.refs = 1
        · rw [if_pos hr] at h2
          simp [List.mem_cons] at h2
          rcases h2 with rfl | rfl | rfl
          · exact ⟨m, rfl, hr, rfl⟩
          · exact absurd hu (by simp [isUnlockedPollsetMut])
          · exact absurd hu (by simp [isUnlockedPollsetMut])
        · rw [if_neg hr] at h2
          simp at h2
  · intro e he hu
    cases hfind2 : findNode (allNodes w) nid with
    | none =>
      have hnil : (on_writable_pre w nid err).2 = [] := by
        unfold on_writable_pre
        rw [hfind2]
      rw [hnil] at he
      simp at he
    | some m =>
      rw [on_writable_pre_evs w nid err m hfind2] at he
      rcases List.mem_cons.mp he with rfl | h2
      · exfalso
        by_cases herr : err <;> simp [herr, isUnlockedPollsetMut] at hu
      · by_cases hr : m.refs = 1
        · rw [if_pos hr] at h2
          simp [List.mem_cons] at h2
          rcases h2 with rfl | rfl | rfl
          · exact ⟨m, rfl, hr, rfl⟩
          · exact absurd hu (by simp [isUnlockedPollsetMut])
          · exact absurd hu (by simp [isUnlockedPollsetMut])
        · rw [if_neg hr] at h2
          simp at h2

/-- C9 amended-claim witness: the unlocked last-reference removal exhibited
for a detached node (fd 5, one pending read, 1 ref) firing with an error. -/
theorem pollset_lock_discipline_witness :
    Ev.pollsetDelFd false 0 5 ∈
      (on_readable_pre ⟨⟨[], false⟩, [⟨0, 5, true, false, 1⟩], 1⟩ 0 true).2 :=
  ((pollset_lock_discipline ⟨⟨[], false⟩, [⟨0, 5, true, false, 1⟩], 1⟩ [] 0 true
      ⟨0, 5, true, false, 1⟩).2.2.1 (by decide) (by decide)).1

/-- C10: when a single snapshot reports the same native descriptor in two
slots (each with a readable or writable bit set), one reconciliation pass on
a fresh driver creates two distinct FdNodes (identities 0 and 1) wrapping
that same descriptor and registers it with the pollset set twice: the lookup
for the second slot misses because the first slot's node was already moved
out of the old collection into the new one. -/
theorem duplicate_fd_two_nodes (d : Int) (ra wa rb wb : Bool)
    (h1 : (ra || wa) = true) (h2 : (rb || wb) = true) :
    ((grpc_ares_notify_on_event_locked ⟨⟨[], true⟩, [], 0⟩
        [⟨d, ra, wa⟩, ⟨d, rb, wb⟩]).1.driver.fds.map FdNode.nodeId = [1, 0]) ∧
    ((grpc_ares_notify_on_event_locked ⟨⟨[], true⟩, [], 0⟩
        [⟨d, ra, wa⟩, ⟨d, rb, wb⟩]).1.driver.fds.map FdNode.fd = [d, d]) ∧
    Ev.pollsetAddFd true 0 d ∈ (grpc_ares_notify_on_event_locked ⟨⟨[], true⟩, [], 0⟩
        [⟨d, ra, wa⟩, ⟨d, rb, wb⟩]).2 ∧
    Ev.pollsetAddFd true 1 d ∈ (grpc_ares_notify_on_event_locked ⟨⟨[], true⟩, [], 0⟩
        [⟨d, ra, wa⟩, ⟨d, rb, wb⟩]).2 := by
  cases ra <;> cases wa <;> cases rb <;> cases wb <;>
    simp_all [grpc_ares_notify_on_event_locked, process_slot, pop_fd_node, activeSlot,
      maybe_register_read, maybe_register_write, new_fd_node, shutdown_leftovers]

/-- C10 witness: slot 0 reports fd 5 readable, slot 1 reports fd 5 writable;
the pass builds two nodes both wrapping descriptor 5. -/
theorem duplicate_fd_two_nodes_witness :
    ((grpc_ares_notify_on_event_locked ⟨⟨[], true⟩, [], 0⟩
        [⟨5, true, false⟩, ⟨5, false, true⟩]).1.driver.fds.map FdNode.fd = [5, 5]) ∧
    (true || false) = true :=
  ⟨(duplicate_fd_two_nodes 5 true false false true (by decide) (by decide)).2.1,
   by decide⟩

/-- C5: a descriptor tracked before a pass but absent from the pass's
reported interest set is shut down during the pass and its list-membership
ref dropped; if it still holds pending registrations its node survives,
detached, with one ref per pending registration — it is not released (no
orphan call for it occurs in the pass); if it holds none, the pass releases
it immediately.  A later firing on any node holding its last reference
releases it right there (the orphan call is in the handler's trace), and a
firing on a node with more references releases nothing. -/
theorem stale_descriptor_lifecycle (w : World) (snap : List SockInfo)
    (n : FdNode) (w2 : World) (nid2 : Nat) (err2 : Bool) (m : FdNode)
    (hInv : WInv w) (hWF : distinctIds w)
    (hmem : n ∈ w.driver.fds) (habs : n.fd ∉ activeFds snap) :
    Ev.fdShutdown n.nodeId n.fd ∈ (grpc_ares_notify_on_event_locked w snap).2 ∧
    (n.readable_registered = false ∧ n.writable_registered = false →
       Ev.fdOrphan n.nodeId n.fd ∈ (grpc_ares_notify_on_event_locked w snap).2) ∧
    ((n.readable_registered || n.writable_registered) = true →
       { n with refs := n.refs - 1 }
           ∈ (grpc_ares_notify_on_event_locked w snap).1.detached ∧
       Ev.fdOrphan n.nodeId n.fd ∉ (grpc_ares_notify_on_event_locked w snap).2) ∧
    (findNode (allNodes w2) nid2 = some m →
       (m.refs = 1 →
          Ev.fdOrphan m.nodeId m.fd ∈ (on_readable_pre w2 nid2 err2).2 ∧
          Ev.fdOrphan m.nodeId m.fd ∈ (on_writable_pre w2 nid2 err2).2) ∧
       (m.refs ≠ 1 →
          (∀ i f, Ev.fdOrphan i f ∉ (on_readable_pre w2 nid2 err2).2) ∧
          ∀ i f, Ev.fdOrphan i f ∉ (on_writable_pre w2 nid2 err2).2)) := by
  have hstale : n ∈ (snap.foldl process_slot ⟨w.driver.fds, [], w.nextId, []⟩).old :=
    stale_stays_in_old snap ⟨w.driver.fds, [], w.nextId, []⟩ n hmem habs
  have facts := shutdown_leftovers_facts hstale
  have hOk := hInv.1 n hmem
  refine ⟨List.mem_append_right _ facts.1, ?_, ?_, ?_⟩
  · intro ⟨hr0, hw0⟩
    have hone : n.refs = 1 := by
      unfold nodeRefsOk at hOk
      rw [hr0, hw0] at hOk
      simpa using hOk
    exact List.mem_append_right _ (facts.2.1 hone)
  · intro hflag
    have hge : n.refs ≠ 1 := by
      unfold nodeRefsOk at hOk
      cases hr0 : n.readable_registered <;> cases hw0 : n.writable_registered <;>
        rw [hr0, hw0] at hOk hflag <;>
        simp only [Bool.toNat_false, Bool.toNat_true] at hOk <;>
        simp at hflag ⊢ <;> omega
    refine ⟨List.mem_append_right _ (facts.2.2 hge), ?_⟩
    refine notify_no_orphan (fun y hy hyid => ?_)
    have hyfds : y ∈ w.driver.fds := fold_old_subset snap _ y hy
    have hyn : y = n :=
      List.inj_on_of_nodup_map (distinctIds_fds hWF) hyfds hmem hyid
    rw [hyn]
    exact hge
  · intro hfind
    constructor
    · intro hone
      constructor
      · rw [on_readable_pre_evs w2 nid2 err2 m hfind, if_pos hone]
        simp
      · rw [on_writable_pre_evs w2 nid2 err2 m hfind, if_pos hone]
        simp
    · intro hne
      constructor
      · intro i f
        rw [on_readable_pre_evs w2 nid2 err2 m hfind, if_neg hne]
        by_cases herr : err2 <;> simp [herr]
      · intro i f
        rw [on_writable_pre_evs w2 nid2 err2 m hfind, if_neg hne]
        by_cases herr : err2 <;> simp [herr]

/-- C5 witness: the lifecycle theorem applied to a driver tracking fd 5
(read registered, 2 refs) reconciled against an empty interest set: the
node is shut down, lands detached with 1 ref, and is not orphaned during
the pass. -/
theorem stale_descriptor_lifecycle_witness :
    Ev.fdShutdown 0 5 ∈
      (grpc_ares_notify_on_event_locked
        ⟨⟨[⟨0, 5, true, false, 2⟩], true⟩, [], 1⟩ []).2 ∧
    ⟨0, 5, true, false, 1⟩ ∈
      (grpc_ares_notify_on_event_locked
        ⟨⟨[⟨0, 5, true, false, 2⟩], true⟩, [], 1⟩ []).1.detached :=
  ⟨(stale_descriptor_lifecycle ⟨⟨[⟨0, 5, true, false, 2⟩], true⟩, [], 1⟩ []
      ⟨0, 5, true, false, 2⟩ ⟨⟨[], false⟩, [], 0⟩ 0 true ⟨0, 5, true, false, 1⟩
      (by decide) (by decide) (by decide) (by decide)).1,
   ((stale_descriptor_lifecycle ⟨⟨[⟨0, 5, true, false, 2⟩], true⟩, [], 1⟩ []
      ⟨0, 5, true, false, 2⟩ ⟨⟨[], false⟩, [], 0⟩ 0 true ⟨0, 5, true, false, 1⟩
      (by decide) (by decide) (by decide) (by decide)).2.2.1 (by decide)).1⟩

/-- C8 witness: the amended statement applied to a working driver tracking
fd 5 when the engine reports `[{fd 5: readable}]`. -/
theorem working_flag_amended_witness :
    ((⟨⟨[⟨0, 5, true, false, 2⟩], true⟩, [], 1⟩ : World).driver.working = true ↔
       (⟨⟨[⟨0, 5, true, false, 2⟩], true⟩, [], 1⟩ : World).driver.fds ≠ []) ∧
    ((grpc_ares_ev_driver_start ⟨⟨[⟨0, 5, true, false, 2⟩], true⟩, [], 1⟩
        [⟨5, true, false⟩]).1.driver.working = true ↔
     (grpc_ares_ev_driver_start ⟨⟨[⟨0, 5, true, false, 2⟩], true⟩, [], 1⟩
        [⟨5, true, false⟩]).1.driver.fds ≠ []) :=
  ⟨by decide,
   (working_flag_amended ⟨⟨[⟨0, 5, true, false, 2⟩], true⟩, [], 1⟩
      [⟨5, true, false⟩]).2.2.2 (by decide)⟩

end AresEv
